import Mathlib

/-!
# fibdrv: fixed-width bignum arithmetic and Fibonacci

A shallow embedding of `bignum.c` / `bignum.h` (a 256-bit two's-complement
integer stored as seven `uint32_t` words plus one `int32_t` top word) and of
the Fibonacci routines and the seek handler of `fibdrv.c`.

Conventions of the embedding:
* a `uint32_t` is a `Nat` below `2^32`, an `int32_t` an `Int` in
  `[-2^31, 2^31)`, an `int64_t` an `Int` in `[-2^63, 2^63)`; every C operation
  that can leave the range is followed by an explicit reduction;
* signed overflow wraps (the kernel is built with wrapping signed arithmetic);
* every C function writes its result through an output pointer; the Lean
  function returns the value written. Each C loop reads word `i` of its
  operands before it writes word `i` of the output, so an output that aliases
  an operand behaves like a fresh one;
* the `NULL` guards at the head of each C function are not modelled: a Lean
  value is always present.
-/

set_option maxRecDepth 10000

namespace Fibdrv

/-! ## Machine integers -/

/-- The constant `BN_ARRAY_SIZE` of `bignum.h`. -/
def BN_ARRAY_SIZE : Nat := 7

/-- The constant `UINT32_MAX` of `bignum.c`. -/
def UINT32_MAX : Nat := 4294967295

/-- Conversion of a C integer to `uint32_t`: reduction modulo `2^32`. -/
def to_u32 (x : Int) : Nat := (x % 4294967296).toNat

/-- Conversion of a C integer to `uint64_t`: reduction modulo `2^64`. -/
def to_u64 (x : Int) : Nat := (x % 18446744073709551616).toNat

/-- Conversion to `int32_t`: the representative in `[-2^31, 2^31)`. -/
def to_i32 (x : Int) : Int := (x + 2147483648) % 4294967296 - 2147483648

/-- Conversion to `loff_t` (`int64_t`): the kernel is built with wrapping signed
arithmetic, so a sum of two `loff_t` is reduced into `[-2^63, 2^63)`. -/
def to_i64 (x : Int) : Int := (x + 9223372036854775808) % 18446744073709551616 - 9223372036854775808

/-- Bitwise complement `~x` of a `uint32_t`. -/
def not_u32 (x : Nat) : Nat := x ^^^ UINT32_MAX

/-- Bitwise complement `~x` of an `int32_t`, computed on the bit pattern. -/
def not_i32 (x : Int) : Int := to_i32 (to_u32 x ^^^ UINT32_MAX)

/-- The C value of a comparison: `1` when it holds, `0` otherwise. -/
def c_bool (p : Prop) [Decidable p] : Nat := if p then 1 else 0

/-! ## The bignum type -/

/-- The `struct bignum` of `bignum.h`: `num` is the little-endian array
`uint32_t num[BN_ARRAY_SIZE]`, `num_and_sign` the signed top word. -/
structure bignum where
  num : List Nat
  num_and_sign : Int
deriving DecidableEq

/-- A value that a `struct bignum` can hold: seven words below `2^32` and a
top word in the `int32_t` range. -/
def bignum.WF (a : bignum) : Prop :=
  a.num.length = BN_ARRAY_SIZE ∧ (∀ x ∈ a.num, x < 4294967296) ∧
    -2147483648 ≤ a.num_and_sign ∧ a.num_and_sign < 2147483648

instance (a : bignum) : Decidable a.WF := by
  unfold bignum.WF; exact inferInstance

/-- Little-endian value of a list of 32-bit words. -/
def limbs : List Nat → Nat
  | [] => 0
  | x :: xs => x + 4294967296 * limbs xs

/-- The 256-bit pattern of a bignum read as an unsigned integer. -/
def bignum.toNat (a : bignum) : Nat :=
  limbs a.num + 2 ^ 224 * to_u32 a.num_and_sign

/-- The two's-complement value of a bignum. -/
def bignum.value (a : bignum) : Int :=
  (limbs a.num : Int) + 2 ^ 224 * a.num_and_sign

/-- Reduction of an integer into `[-2^255, 2^255)` modulo `2^256`. -/
def wrap256 (x : Int) : Int := (x + 2 ^ 255) % 2 ^ 256 - 2 ^ 255

/-- Word `i` of the array `num`. -/
def bignum.word (a : bignum) (i : Nat) : Nat := a.num.getD i 0

/-- The minimum representable value `-2^255`. -/
def bignum_min : bignum := ⟨List.replicate BN_ARRAY_SIZE 0, -2147483648⟩

/-! ## bignum.c -/

/-- `bignum_init`: `memset` of the whole struct to zero. -/
def bignum_init : bignum := ⟨List.replicate BN_ARRAY_SIZE 0, 0⟩

/-- `bignum_from_int`: words 0 and 1 take the low and high half of the 64-bit
pattern of `i`, the words `j = 2 .. BN_ARRAY_SIZE - 1` and the top word take
`-(i < 0)`. -/
def bignum_from_int (i : Int) : bignum :=
  ⟨(to_u64 i &&& UINT32_MAX) :: to_u32 (i / 4294967296) ::
      (List.range' 2 (BN_ARRAY_SIZE - 2)).map (fun _ => to_u32 (-(c_bool (i < 0) : Int))),
    to_i32 (-(c_bool (i < 0) : Int))⟩

/-- The carry loop shared by `bignum_add`, `bignum_sub` and `bignum_neg`, from
index `i` for `n` more rounds: `tmp = x i + y i + carry` in 64 bits,
`carry = (tmp > UINT32_MAX)`, `c->num[i] = tmp & UINT32_MAX`. Returns the
words written, in order, and the carry left after the last round. -/
def carry_loop (x y : Nat → Nat) : Nat → Nat → Nat → List Nat × Nat
  | 0, _, carry => ([], carry)
  | n + 1, i, carry =>
    let tmp := (x i + y i + carry) % 18446744073709551616
    let r := carry_loop x y n (i + 1) (c_bool (tmp > UINT32_MAX))
    ((tmp &&& UINT32_MAX) :: r.1, r.2)

/-- `bignum_add`: `c = a + b`. -/
def bignum_add (a b : bignum) : bignum :=
  let r := carry_loop a.word b.word BN_ARRAY_SIZE 0 0
  ⟨r.1, to_i32 (a.num_and_sign + b.num_and_sign + (r.2 : Int))⟩

/-- `bignum_sub`: `c = a - b`, as `a + ~b + 1`. -/
def bignum_sub (a b : bignum) : bignum :=
  let r := carry_loop a.word (fun i => not_u32 (b.word i)) BN_ARRAY_SIZE 0 1
  ⟨r.1, to_i32 (a.num_and_sign + not_i32 b.num_and_sign + (r.2 : Int))⟩

/-- `bignum_neg`: `b = -a`, as `~a + 1`. -/
def bignum_neg (a : bignum) : bignum :=
  let r := carry_loop (fun i => not_u32 (a.word i)) (fun _ => 0) BN_ARRAY_SIZE 0 1
  ⟨r.1, to_i32 (not_i32 a.num_and_sign + (r.2 : Int))⟩

/-- `bignum_abs`: `mask = -(a->num_and_sign < 0)`; word 0 becomes
`(num[0] + mask) ^ mask`, the words `i = 1 .. BN_ARRAY_SIZE - 1` and the top
word become `x ^ mask`. -/
def bignum_abs (a : bignum) : bignum :=
  let mask : Int := to_i32 (-(c_bool (a.num_and_sign < 0) : Int))
  ⟨(((a.word 0 + to_u32 mask) % 4294967296) ^^^ to_u32 mask) ::
      (List.range' 1 (BN_ARRAY_SIZE - 1)).map (fun i => a.word i ^^^ to_u32 mask),
    to_i32 (to_u32 a.num_and_sign ^^^ to_u32 mask)⟩

/-- The loop of `bignum_shl1`, from index `i` for `n` more rounds:
`carry = (num[i] >> 31) & 1`, `b->num[i] = (num[i] << 1) | lsb`, `lsb = carry`.
Returns the words written, in order, and the bit left after the last round. -/
def shl1_loop (x : Nat → Nat) : Nat → Nat → Nat → List Nat × Nat
  | 0, _, lsb => ([], lsb)
  | n + 1, i, lsb =>
    let carry := (x i >>> 31) &&& 1
    let r := shl1_loop x n (i + 1) carry
    ((((x i <<< 1) % 4294967296) ||| lsb) :: r.1, r.2)

/-- `bignum_shl1`: `b = a << 1`, with `lsb` shifted in at the bottom. -/
def bignum_shl1 (a : bignum) (lsb : Nat) : bignum :=
  let r := shl1_loop a.word BN_ARRAY_SIZE 0 lsb
  ⟨r.1, to_i32 (((to_u32 a.num_and_sign <<< 1) % 4294967296) ||| r.2)⟩

/-- `bignum_from_uint_shift_unit`: the 64-bit `u` placed at word `unit`;
what falls beyond the top word is dropped. -/
def bignum_from_uint_shift_unit (u : Nat) (unit : Nat) : bignum :=
  let z := bignum_init
  if unit + 1 < BN_ARRAY_SIZE then
    ⟨(z.num.set unit (u &&& UINT32_MAX)).set (unit + 1) ((u >>> 32) % 4294967296),
      z.num_and_sign⟩
  else if unit = BN_ARRAY_SIZE - 1 then
    ⟨z.num.set (BN_ARRAY_SIZE - 1) (u &&& UINT32_MAX), to_i32 (u >>> 32)⟩
  else if unit = BN_ARRAY_SIZE then
    ⟨z.num, to_i32 (u &&& UINT32_MAX)⟩
  else z

/-- The accumulation part of `bignum_mul` (from `bignum_init(c)` to the last
`bignum_add`), on the two magnitudes `abs_a` and `abs_b`. The inner loop runs
while `i + j <= BN_ARRAY_SIZE && j < BN_ARRAY_SIZE`; the two products with a
top word follow the loops. -/
def mul_accumulate (abs_a abs_b : bignum) : bignum :=
  let c := (List.range BN_ARRAY_SIZE).foldl
    (fun c i =>
      ((List.range BN_ARRAY_SIZE).takeWhile (fun j => decide (i + j ≤ BN_ARRAY_SIZE))).foldl
        (fun c j =>
          let tmp := (abs_a.word i * abs_b.word j) % 18446744073709551616
          bignum_add c (bignum_from_uint_shift_unit tmp (i + j)))
        c)
    bignum_init
  let tmp := (abs_a.word 0 * to_u64 abs_b.num_and_sign) % 18446744073709551616
  let c := bignum_add c (bignum_from_uint_shift_unit tmp BN_ARRAY_SIZE)
  let tmp := (to_u64 abs_a.num_and_sign * abs_b.word 0) % 18446744073709551616
  bignum_add c (bignum_from_uint_shift_unit tmp BN_ARRAY_SIZE)

/-- `bignum_mul`: `c = a * b`: the sign is taken first, the magnitudes are
multiplied, and the product is negated when the signs differ. -/
def bignum_mul (a b : bignum) : bignum :=
  let sign : Bool := decide (a.num_and_sign < 0) != decide (b.num_and_sign < 0)
  let abs_a := bignum_abs a
  let abs_b := bignum_abs b
  let c := mul_accumulate abs_a abs_b
  if sign then bignum_neg c else c

/-- The loop of `bignum_shr1`, which runs from word `n` down to word `0`:
`carry = num[i] & 1`, `b->num[i] = (num[i] >> 1) | (msb << 31)`, `msb = carry`.
Returns the words `0 .. n` written, in little-endian order. -/
def shr1_loop (x : Nat → Nat) : Nat → Nat → List Nat
  | 0, _ => []
  | n + 1, msb =>
    shr1_loop x n (x n &&& 1) ++ [(x n >>> 1) ||| ((msb <<< 31) % 4294967296)]

/-- `bignum_shr1`: `b = a >> 1`, with `msb` shifted in at the top; the top
word is shifted as a `uint32_t`. -/
def bignum_shr1 (a : bignum) (msb : Nat) : bignum :=
  let carry := to_u32 a.num_and_sign &&& 1
  ⟨shr1_loop a.word BN_ARRAY_SIZE carry,
    to_i32 ((to_u32 a.num_and_sign >>> 1) ||| ((msb <<< 31) % 4294967296))⟩

/-- One round of the loop of `bignum_divrem` on the state `(quo, rem)`. -/
def divrem_step (b : bignum) (s : bignum × bignum) : bignum × bignum :=
  let rem := bignum_sub s.2 b
  if rem.num_and_sign ≥ 0 then
    let carry := c_bool (s.1.num_and_sign < 0)
    (bignum_shl1 s.1 1, bignum_shl1 rem carry)
  else
    let rem := bignum_add rem b
    let carry := c_bool (s.1.num_and_sign < 0)
    (bignum_shl1 s.1 0, bignum_shl1 rem carry)

/-- The loop of `bignum_divrem`, for `n` rounds. -/
def divrem_loop (b : bignum) : Nat → bignum × bignum → bignum × bignum
  | 0, s => s
  | n + 1, s => divrem_loop b n (divrem_step b s)

/-- `bignum_divrem`: `c = a / b`, `d = a % b` by restoring division; the loop
runs `sizeof(struct bignum) * 8` rounds. Returns `(c, d)`. -/
def bignum_divrem (a b : bignum) : bignum × bignum :=
  let quo := a
  let rem := bignum_init
  let carry := c_bool (quo.num_and_sign < 0)
  let quo := bignum_shl1 quo 0
  let rem := bignum_shl1 rem carry
  let s := divrem_loop b (4 * (BN_ARRAY_SIZE + 1) * 8) (quo, rem)
  (s.1, bignum_shr1 s.2 0)

/-- `bignum_div`: `c = a / b`; only the quotient of `bignum_divrem` is
requested. -/
def bignum_div (a b : bignum) : bignum :=
  let sign : Bool := decide (a.num_and_sign < 0) != decide (b.num_and_sign < 0)
  let abs_a := bignum_abs a
  let abs_b := bignum_abs b
  let c := (bignum_divrem abs_a abs_b).1
  if sign then bignum_neg c else c

/-- `bignum_is_zero`: `1` when the top word and every word of `num` are `0`. -/
def bignum_is_zero (a : bignum) : Nat :=
  if a.num_and_sign ≠ 0 then 0
  else if (List.range BN_ARRAY_SIZE).any (fun i => decide (a.word i ≠ 0)) then 0
  else 1

/-- The nine decimal digits of `x`, most significant first, as characters. -/
def digits9 (x : Nat) : List Nat :=
  (List.range 9).map (fun j => 48 + x / 10 ^ (8 - j) % 10)

/-- The library call `snprintf(buf, 10, "%09u", x)` for a `uint32_t` `x`: the
decimal numeral of `x` padded with zeros to nine digits, cut after nine
characters (a ten-digit numeral loses its last digit). -/
def snprintf_09u (x : Nat) : List Nat :=
  if x < 1000000000 then digits9 x else digits9 (x / 10)

/-- The memory around `str` as a list of writes, the latest first: a pair
`(off, c)` stores the byte `c` at `str + off`. -/
abbrev writes := List (Int × Nat)

/-- The byte at `str + off` after the writes `w`, over the content `init`. -/
def read (init : Int → Nat) (w : writes) (off : Int) : Nat :=
  match w.find? (fun p => decide (p.1 = off)) with
  | some p => p.2
  | none => init off

/-- Storing the bytes `bs` at `str + off`, `str + off + 1`, ... in this order. -/
def store (w : writes) (off : Int) : List Nat → writes
  | [] => w
  | c :: bs => store ((off, c) :: w) (off + 1) bs

/-- The library call `memmove(str + dst, str + src, n)`: the `n` bytes are read
first and stored afterwards. -/
def memmove (init : Int → Nat) (w : writes) (dst src : Int) (n : Nat) : writes :=
  store w dst ((List.range n).map (fun j => read init w (src + j)))

/-- The loop `for (i = size - 1 - 9; i >= 0; i -= 9)` of `bignum_to_dec` on
the state `(i, quo, memory)`; it stops early once the quotient is zero. Each
round lowers `i` by 9, so `fuel` rounds are enough when `i < 9 * fuel`. -/
def to_dec_loop (base : bignum) :
    Nat → Int × bignum × writes → Int × bignum × writes
  | 0, s => s
  | fuel + 1, (i, quo, w) =>
    if i ≥ 0 then
      let qr := bignum_divrem quo base
      let w := store w i (snprintf_09u (qr.2.word 0))
      if bignum_is_zero qr.1 ≠ 0 then (i, qr.1, w)
      else to_dec_loop base fuel (to_i32 (i - 9), qr.1, w)
    else (i, quo, w)

/-- The loop `while (*(str + i) == '0' && i < size - 2) i++` of
`bignum_to_dec`; the comparison with `size - 2` is made in `size_t`. -/
def skip_zeros (init : Int → Nat) (w : writes) (size : Nat) : Nat → Int → Int
  | 0, i => i
  | fuel + 1, i =>
    if read init w i = 48 ∧ to_u64 i < size - 2 then
      skip_zeros init w size fuel (to_i32 (i + 1))
    else i

/-- `bignum_to_dec`: the writes made through `str`, the latest first. `init`
is the content of the memory around `str` on entry, `size` the `size_t`
length of the buffer. -/
def bignum_to_dec (a : bignum) (init : Int → Nat) (size : Nat) : writes :=
  if size = 0 then []
  else if size < 10 then [(0, 0)]
  else
    let base := bignum_from_int 1000000000
    let quo := bignum_abs a
    let w : writes := [((size : Int) - 1, 0)]
    let s := to_dec_loop base size (to_i32 ((size : Int) - 1 - 9), quo, w)
    let i := s.1
    let w := s.2.2
    if i ≥ 0 then
      let i := skip_zeros init w size size i
      let iw : Int × writes :=
        if a.num_and_sign < 0 then (to_i32 (i - 1), (to_i32 (i - 1), 45) :: w) else (i, w)
      memmove init iw.2 0 iw.1 (to_u64 ((size : Int) - iw.1))
    else
      let i := to_i32 (i + 9)
      if i > 0 then store w 0 (List.replicate i.toNat 46)
      else store w 0 (List.replicate 9 46)

/-- The C string at `str`: the bytes from `str` up to the first `0`, among
the first `n` bytes. -/
def c_string (mem : Int → Nat) : Nat → Int → List Nat
  | 0, _ => []
  | n + 1, off => if mem off = 0 then [] else mem off :: c_string mem n (off + 1)

/-- The text left in the buffer by `bignum_to_dec`. -/
def to_dec_text (a : bignum) (init : Int → Nat) (size : Nat) : String :=
  String.mk ((c_string (read init (bignum_to_dec a init size)) size 0).map Char.ofNat)

/-! ## fibdrv.c -/

/-- The GCC builtin `__builtin_clzll` behind the macro `clz`: the number of
zero bits above the highest set bit of a 64-bit word, scanned from bit
`n - 1` downwards. -/
def clz_from : Nat → Nat → Nat
  | 0, _ => 0
  | n + 1, x => if x / 2 ^ n % 2 = 1 then 0 else clz_from n x + 1

/-- The macro `clz(x)` of `fibdrv.c`. -/
def clz (x : Nat) : Nat := clz_from 64 x

/-- One round of the loop of `fib_bignum_fast`; `bit` is `k & mask`. -/
def fib_fast_step (a b : bignum) (bit : Bool) : bignum × bignum :=
  let t := bignum_shl1 b 0
  let t := bignum_sub t a
  let t := bignum_mul t a
  let b := bignum_mul b b
  let a := bignum_mul a a
  let b := bignum_add a b
  let a := t
  if bit then (b, bignum_add a b) else (a, b)

/-- The loop of `fib_bignum_fast`: `for (mask = ..; mask > 0; mask >>= 1)`.
`fuel` bounds the number of rounds; a positive `int` reaches `0` after at
most 31 halvings. -/
def fib_fast_loop (k : Nat) : Nat → Nat → bignum × bignum → bignum × bignum
  | 0, _, s => s
  | fuel + 1, mask, s =>
    if mask > 0 then
      fib_fast_loop k fuel (mask >>> 1) (fib_fast_step s.1 s.2 (decide (k &&& mask ≠ 0)))
    else s

/-- `fib_bignum_fast`. The initial mask `1 << (63 - clz(k))` is an `int`; the
C expression is defined for `k < 2^31`, where it is the power of two below. -/
def fib_bignum_fast (k : Int) : bignum :=
  if k ≤ 1 then bignum_from_int k
  else
    let mask := 1 <<< (8 * 8 - 1 - clz (to_u64 k))
    (fib_fast_loop k.toNat 32 mask (bignum_from_int 0, bignum_from_int 1)).1

/-- The loop of `fib_bignum_orig`: `while (k > 1) { ...; k--; }` over the
state `(a, b, *result)`. -/
def fib_orig_loop : Nat → Int → bignum × bignum × bignum → bignum × bignum × bignum
  | 0, _, s => s
  | fuel + 1, k, s =>
    if k > 1 then
      let result := bignum_add s.1 s.2.1
      fib_orig_loop fuel (k - 1) (s.2.1, result, result)
    else s

/-- `fib_bignum_orig`; `result` is what the output buffer holds on entry. The
loop runs `k - 1` rounds, so `k` rounds of fuel are enough. -/
def fib_bignum_orig (k : Int) (result : bignum) : bignum :=
  if k ≤ 1 then bignum_from_int k
  else
    (fib_orig_loop k.toNat k (bignum_from_int 0, bignum_from_int 1, result)).2.2

/-- The macro `MAX_LENGTH` of `fibdrv.c`. -/
def MAX_LENGTH : Int := 368

/-- `fib_device_lseek`, with `f_pos` the value of `file->f_pos` on entry. The
first component is the value stored into `file->f_pos`, the second the value
returned. -/
def fib_device_lseek (f_pos : Int) (offset : Int) (orig : Int) : Int × Int :=
  let new_pos : Int := 0
  let new_pos :=
    if orig = 0 then offset
    else if orig = 1 then to_i64 (f_pos + offset)
    else if orig = 2 then to_i64 (MAX_LENGTH - offset)
    else new_pos
  let new_pos := if new_pos > MAX_LENGTH then MAX_LENGTH else new_pos
  let new_pos := if new_pos < 0 then 0 else new_pos
  (new_pos, new_pos)

/-- The Fibonacci numbers: `F 0 = 0`, `F 1 = 1`, `F (n + 2) = F (n + 1) + F n`. -/
def F : Nat → Nat
  | 0 => 0
  | 1 => 1
  | n + 2 => F (n + 1) + F n

/-- Weighted sum of the `n` words `f i, f (i + 1), ..`, little-endian. -/
def sumw (f : Nat → Nat) : Nat → Nat → Nat
  | 0, _ => 0
  | n + 1, i => f i + 4294967296 * sumw f n (i + 1)

/-- The operands on which `bignum_abs` agrees with negation: the top word is
non-negative, or the lowest word is not zero. -/
def abs_ok (a : bignum) : Prop := 0 ≤ a.num_and_sign ∨ a.word 0 ≠ 0

/-! ## Specification-side definitions for the division and Fibonacci proofs -/

/-- One round of `bignum_divrem` on the bit patterns `(quo, rem)` read as
unsigned integers, for the divisor pattern `b`. -/
def nat_divrem_step (b : Nat) (s : Nat × Nat) : Nat × Nat :=
  let d := (s.2 + 2 ^ 256 - b) % 2 ^ 256
  if d < 2 ^ 255 then ((2 * s.1 + 1) % 2 ^ 256, (2 * d + s.1 / 2 ^ 255) % 2 ^ 256)
  else ((2 * s.1) % 2 ^ 256, (2 * ((d + b) % 2 ^ 256) + s.1 / 2 ^ 255) % 2 ^ 256)

/-- Invariant of the division loop for a divisor `b > 0`. `B` is twice the
dividend, `P` the weight of the bit of `B` held at the bottom of `rem`, `M` the
weight reached by the quotient bits: above that bit `B` is `h = b * Q + r`, the
bits below it are still in `quo`, over the quotient bits `Q`. -/
def div_inv (B b P M qn rn : Nat) : Prop :=
  ∃ h t l Q r, P * M = 2 ^ 256 ∧ B = h * (2 * P) + t * P + l ∧ t ≤ 1 ∧ l < P ∧
    h = b * Q + r ∧ r < b ∧ h < M ∧ qn = l * M + Q ∧ rn = 2 * r + t

/-- Invariant of the division loop for the divisor `0`: every quotient bit
so far is `1` and `rem` holds the bits of `B` already shifted in. -/
def div_inv0 (B P M qn rn : Nat) : Prop :=
  ∃ h t l, P * M = 2 ^ 256 ∧ B = h * (2 * P) + t * P + l ∧ t ≤ 1 ∧ l < P ∧
    h < M ∧ qn = l * M + (M - 1) ∧ rn = 2 * h + t

/-- The doubling step on a pair `(F n, F (n + 1))` of Fibonacci numbers
reduced modulo `M`: the pair `(F (2 n), F (2 n + 1))` modulo `M`. -/
def dbl_mod (M : Nat) (p : Nat × Nat) : Nat × Nat :=
  ((p.1 * (2 * p.2 + M - p.1)) % M, (p.2 * p.2 + p.1 * p.1) % M)

/-! ## Machine-integer lemmas -/

theorem land_UINT32_MAX (x : Nat) : x &&& UINT32_MAX = x % 4294967296 := by
  have := Nat.and_pow_two_sub_one_eq_mod x 32
  simpa [UINT32_MAX] using this

theorem xor_UINT32_MAX {x : Nat} (h : x < 4294967296) : x ^^^ UINT32_MAX = 4294967295 - x := by
  apply Nat.eq_of_testBit_eq
  intro i
  have h2 := @Nat.testBit_two_pow_sub_succ x 32 (by simpa using h) i
  have e : (2 : Nat) ^ 32 - (x + 1) = 4294967295 - x := by omega
  rw [e] at h2
  rw [h2, Nat.testBit_xor]
  have e2 : UINT32_MAX = 2 ^ 32 - 1 := by decide
  rw [e2, Nat.testBit_two_pow_sub_one]
  by_cases hi : i < 32
  · simp [hi]
  · have : x.testBit i = false := by
      apply Nat.testBit_eq_false_of_lt
      calc x < 2 ^ 32 := by simpa using h
        _ ≤ 2 ^ i := Nat.pow_le_pow_right (by decide) (by omega)
    simp [hi, this]

theorem not_u32_eq {x : Nat} (h : x < 4294967296) : not_u32 x = 4294967295 - x :=
  xor_UINT32_MAX h

theorem to_u32_lt (x : Int) : to_u32 x < 4294967296 := by
  unfold to_u32; omega

theorem to_u32_to_i32 (x : Int) : to_u32 (to_i32 x) = to_u32 x := by
  unfold to_u32 to_i32; omega

theorem to_i32_range (x : Int) : -2147483648 ≤ to_i32 x ∧ to_i32 x < 2147483648 := by
  unfold to_i32; omega

theorem to_i32_of_range {x : Int} (h1 : -2147483648 ≤ x) (h2 : x < 2147483648) :
    to_i32 x = x := by
  unfold to_i32; omega

theorem not_i32_eq {x : Int} (h1 : -2147483648 ≤ x) (h2 : x < 2147483648) :
    not_i32 x = -x - 1 := by
  unfold not_i32
  rw [xor_UINT32_MAX (to_u32_lt x)]
  unfold to_i32 to_u32; omega

theorem c_bool_le (p : Prop) [Decidable p] : c_bool p ≤ 1 := by
  unfold c_bool; split <;> omega

/-! ## Words and their value -/

theorem limbs_cons (x : Nat) (xs : List Nat) :
    limbs (x :: xs) = x + 4294967296 * limbs xs := rfl

theorem limbs_append (l : List Nat) (c : Nat) :
    limbs (l ++ [c]) = limbs l + 2 ^ (32 * l.length) * c := by
  induction l with
  | nil => simp [limbs]
  | cons x xs ih =>
    rw [List.cons_append, limbs_cons, limbs_cons, ih, List.length_cons]
    have : 2 ^ (32 * (xs.length + 1)) = 4294967296 * 2 ^ (32 * xs.length) := by
      rw [Nat.mul_add, Nat.pow_add]; norm_num [Nat.mul_comm]
    rw [this]; ring

theorem limbs_lt (l : List Nat) (h : ∀ x ∈ l, x < 4294967296) :
    limbs l < 2 ^ (32 * l.length) := by
  induction l with
  | nil => simp [limbs]
  | cons x xs ih =>
    have hx : x < 4294967296 := h x (List.mem_cons_self _ _)
    have hxs := ih (fun y hy => h y (List.mem_cons_of_mem _ hy))
    have : 2 ^ (32 * (xs.length + 1)) = 4294967296 * 2 ^ (32 * xs.length) := by
      rw [Nat.mul_add, Nat.pow_add]; norm_num [Nat.mul_comm]
    simp only [limbs, List.length_cons, this]
    nlinarith

theorem limbs_inj : ∀ (l m : List Nat), l.length = m.length →
    (∀ x ∈ l, x < 4294967296) → (∀ x ∈ m, x < 4294967296) → limbs l = limbs m → l = m
  | [], [], _, _, _, _ => rfl
  | [], _ :: _, h, _, _, _ => by simp at h
  | _ :: _, [], h, _, _, _ => by simp at h
  | x :: xs, y :: ys, h, hl, hm, e => by
    have hx : x < 4294967296 := hl x (List.mem_cons_self _ _)
    have hy : y < 4294967296 := hm y (List.mem_cons_self _ _)
    simp only [limbs] at e
    have e1 : x = y := by omega
    have e2 : limbs xs = limbs ys := by omega
    have := limbs_inj xs ys (by simpa using h) (fun z hz => hl z (List.mem_cons_of_mem _ hz))
      (fun z hz => hm z (List.mem_cons_of_mem _ hz)) e2
    rw [e1, this]

theorem sumw_drop (l : List Nat) : ∀ (n i : Nat), i + n = l.length →
    sumw (fun j => l.getD j 0) n i = limbs (l.drop i)
  | 0, i, h => by
    have : l.drop i = [] := List.drop_eq_nil_of_le (by omega)
    simp [sumw, this, limbs]
  | n + 1, i, h => by
    have hi : i < l.length := by omega
    have e : l.drop i = l.getD i 0 :: l.drop (i + 1) := by
      rw [List.getD_eq_getElem l 0 hi]
      exact List.drop_eq_getElem_cons hi
    rw [e]
    simp only [sumw, limbs]
    rw [sumw_drop l n (i + 1) (by omega)]

theorem sumw_word (a : bignum) (h : a.num.length = BN_ARRAY_SIZE) :
    sumw a.word BN_ARRAY_SIZE 0 = limbs a.num := by
  have := sumw_drop a.num BN_ARRAY_SIZE 0 (by omega)
  rw [List.drop_zero] at this
  exact this

theorem word_lt {a : bignum} (h : a.WF) (i : Nat) : a.word i < 4294967296 := by
  unfold bignum.word
  by_cases hi : i < a.num.length
  · rw [List.getD_eq_getElem _ _ hi]
    exact h.2.1 _ (List.getElem_mem hi)
  · rw [List.getD_eq_default _ _ (by omega)]; decide

theorem wf_limbs_lt {a : bignum} (h : a.WF) :
    limbs a.num < 26959946667150639794667015087019630673637144422540572481103610249216 := by
  have := limbs_lt a.num h.2.1
  rw [h.1] at this
  exact this

theorem value_range {a : bignum} (h : a.WF) :
    -(2 : Int) ^ 255 ≤ a.value ∧ a.value < 2 ^ 255 := by
  have h1 := wf_limbs_lt h
  obtain ⟨_, _, h3, h4⟩ := h
  unfold bignum.value
  omega

theorem value_nonneg_iff {a : bignum} (h : a.WF) : 0 ≤ a.value ↔ 0 ≤ a.num_and_sign := by
  have h1 := wf_limbs_lt h
  obtain ⟨_, _, h3, h4⟩ := h
  unfold bignum.value
  omega

theorem value_inj {a b : bignum} (ha : a.WF) (hb : b.WF) (h : a.value = b.value) : a = b := by
  have h1 := wf_limbs_lt ha
  have h2 := wf_limbs_lt hb
  have e : limbs a.num = limbs b.num ∧ a.num_and_sign = b.num_and_sign := by
    unfold bignum.value at h
    omega
  have := limbs_inj a.num b.num (by rw [ha.1, hb.1]) ha.2.1 hb.2.1 e.1
  cases a; cases b
  simp only [bignum.mk.injEq]
  exact ⟨this, e.2⟩

/-! ## The carry loop -/

theorem carry_loop_spec (x y : Nat → Nat) (hx : ∀ i, x i < 4294967296)
    (hy : ∀ i, y i < 4294967296) : ∀ (n i c : Nat), c ≤ 1 →
    (carry_loop x y n i c).1.length = n ∧
    (∀ w ∈ (carry_loop x y n i c).1, w < 4294967296) ∧
    (carry_loop x y n i c).2 ≤ 1 ∧
    limbs ((carry_loop x y n i c).1 ++ [(carry_loop x y n i c).2]) =
      sumw x n i + sumw y n i + c
  | 0, i, c, hc => by simp [carry_loop, sumw, limbs, hc]
  | n + 1, i, c, hc => by
    have h1 := hx i
    have h2 := hy i
    have e : (x i + y i + c) % 18446744073709551616 = x i + y i + c := by omega
    have hc2 : c_bool ((x i + y i + c) > UINT32_MAX) = (x i + y i + c) / 4294967296 := by
      unfold c_bool UINT32_MAX; split <;> omega
    obtain ⟨i1, i2, i3, i4⟩ := carry_loop_spec x y hx hy n (i + 1)
      (c_bool ((x i + y i + c) > UINT32_MAX)) (c_bool_le _)
    simp only [carry_loop, e, land_UINT32_MAX, List.length_cons, List.cons_append, limbs_cons,
      sumw, List.mem_cons]
    refine ⟨by omega, ?_, i3, ?_⟩
    · intro w hw
      rcases hw with rfl | hw
      · omega
      · exact i2 w hw
    · rw [i4, hc2]; omega

theorem carry_loop_BN (x y : Nat → Nat) (hx : ∀ i, x i < 4294967296)
    (hy : ∀ i, y i < 4294967296) (c : Nat) (hc : c ≤ 1) :
    (carry_loop x y BN_ARRAY_SIZE 0 c).1.length = BN_ARRAY_SIZE ∧
    (∀ w ∈ (carry_loop x y BN_ARRAY_SIZE 0 c).1, w < 4294967296) ∧
    (carry_loop x y BN_ARRAY_SIZE 0 c).2 ≤ 1 ∧
    limbs (carry_loop x y BN_ARRAY_SIZE 0 c).1 <
      26959946667150639794667015087019630673637144422540572481103610249216 ∧
    limbs (carry_loop x y BN_ARRAY_SIZE 0 c).1 +
      26959946667150639794667015087019630673637144422540572481103610249216 *
        (carry_loop x y BN_ARRAY_SIZE 0 c).2 =
      sumw x BN_ARRAY_SIZE 0 + sumw y BN_ARRAY_SIZE 0 + c := by
  obtain ⟨h1, h2, h3, h4⟩ := carry_loop_spec x y hx hy BN_ARRAY_SIZE 0 c hc
  have h5 := limbs_lt _ h2
  rw [limbs_append, h1] at h4
  rw [h1] at h5
  exact ⟨h1, h2, h3, h5, h4⟩

theorem not_u32_lt (x : Nat) (h : x < 4294967296) : not_u32 x < 4294967296 := by
  rw [not_u32_eq h]; omega

theorem sumw_not (x : Nat → Nat) (hx : ∀ i, x i < 4294967296) : ∀ (n i : Nat),
    sumw (fun j => not_u32 (x j)) n i + sumw x n i = sumw (fun _ => 4294967295) n i
  | 0, _ => rfl
  | n + 1, i => by
    have := sumw_not x hx n (i + 1)
    have h := hx i
    simp only [sumw, not_u32_eq h]
    omega

theorem sumw_zero : ∀ (n i : Nat), sumw (fun _ => 0) n i = 0
  | 0, _ => rfl
  | n + 1, i => by simp [sumw, sumw_zero n (i + 1)]

theorem sumw_ones : sumw (fun _ => 4294967295) BN_ARRAY_SIZE 0 =
    26959946667150639794667015087019630673637144422540572481103610249215 := by
  decide

theorem sumw_not_word {a : bignum} (h : a.WF) :
    sumw (fun j => not_u32 (a.word j)) BN_ARRAY_SIZE 0 =
      26959946667150639794667015087019630673637144422540572481103610249215 - limbs a.num := by
  have := sumw_not a.word (word_lt h) BN_ARRAY_SIZE 0
  rw [sumw_ones, sumw_word a h.1] at this
  omega

/-! ## Addition, subtraction, negation -/

theorem WF_add {a b : bignum} (ha : a.WF) (hb : b.WF) : (bignum_add a b).WF := by
  obtain ⟨h1, h2, _, _, _⟩ := carry_loop_BN a.word b.word (word_lt ha) (word_lt hb) 0 (by omega)
  exact ⟨h1, h2, (to_i32_range _).1, (to_i32_range _).2⟩

theorem value_add {a b : bignum} (ha : a.WF) (hb : b.WF) :
    (bignum_add a b).value = wrap256 (a.value + b.value) := by
  obtain ⟨_, _, h3, h4, h5⟩ :=
    carry_loop_BN a.word b.word (word_lt ha) (word_lt hb) 0 (by omega)
  rw [sumw_word a ha.1, sumw_word b hb.1] at h5
  have la := wf_limbs_lt ha
  have lb := wf_limbs_lt hb
  obtain ⟨_, _, a3, a4⟩ := ha
  obtain ⟨_, _, b3, b4⟩ := hb
  unfold bignum.value wrap256 bignum_add to_i32
  dsimp only
  omega

theorem WF_sub {a b : bignum} (ha : a.WF) (hb : b.WF) : (bignum_sub a b).WF := by
  obtain ⟨h1, h2, _, _, _⟩ := carry_loop_BN a.word (fun i => not_u32 (b.word i)) (word_lt ha)
    (fun i => not_u32_lt _ (word_lt hb i)) 1 (by omega)
  exact ⟨h1, h2, (to_i32_range _).1, (to_i32_range _).2⟩

theorem value_sub {a b : bignum} (ha : a.WF) (hb : b.WF) :
    (bignum_sub a b).value = wrap256 (a.value - b.value) := by
  obtain ⟨_, _, h3, h4, h5⟩ := carry_loop_BN a.word (fun i => not_u32 (b.word i)) (word_lt ha)
    (fun i => not_u32_lt _ (word_lt hb i)) 1 (by omega)
  rw [sumw_word a ha.1, sumw_not_word hb] at h5
  have la := wf_limbs_lt ha
  have lb := wf_limbs_lt hb
  obtain ⟨_, _, a3, a4⟩ := ha
  obtain ⟨_, _, b3, b4⟩ := hb
  unfold bignum.value wrap256 bignum_sub
  dsimp only
  rw [not_i32_eq b3 b4]
  unfold to_i32
  omega

theorem WF_neg {a : bignum} (ha : a.WF) : (bignum_neg a).WF := by
  obtain ⟨h1, h2, _, _, _⟩ := carry_loop_BN (fun i => not_u32 (a.word i)) (fun _ => 0)
    (fun i => not_u32_lt _ (word_lt ha i)) (fun _ => by norm_num) 1 (by omega)
  exact ⟨h1, h2, (to_i32_range _).1, (to_i32_range _).2⟩

theorem value_neg {a : bignum} (ha : a.WF) :
    (bignum_neg a).value = wrap256 (-a.value) := by
  obtain ⟨_, _, h3, h4, h5⟩ := carry_loop_BN (fun i => not_u32 (a.word i)) (fun _ => 0)
    (fun i => not_u32_lt _ (word_lt ha i)) (fun _ => by norm_num) 1 (by omega)
  rw [sumw_zero, sumw_not_word ha] at h5
  have la := wf_limbs_lt ha
  obtain ⟨_, _, a3, a4⟩ := ha
  unfold bignum.value wrap256 bignum_neg
  dsimp only
  rw [not_i32_eq a3 a4]
  unfold to_i32
  omega

/-! ## Shift left by one -/

theorem shl1_word (w lsb : Nat) (hl : lsb ≤ 1) :
    ((w <<< 1) % 4294967296) ||| lsb = (2 * w) % 4294967296 + lsb := by
  have e : (w <<< 1) % 4294967296 = 2 ^ 1 * (w % 2147483648) := by
    rw [Nat.shiftLeft_eq]; omega
  rw [e, ← Nat.mul_add_lt_is_or (by omega)]
  omega

theorem shl1_carry (w : Nat) : (w >>> 31) &&& 1 = w / 2147483648 % 2 := by
  rw [Nat.shiftRight_eq_div_pow, Nat.and_one_is_mod]

theorem shl1_loop_spec (x : Nat → Nat) (hx : ∀ i, x i < 4294967296) :
    ∀ (n i lsb : Nat), lsb ≤ 1 →
    (shl1_loop x n i lsb).1.length = n ∧
    (∀ w ∈ (shl1_loop x n i lsb).1, w < 4294967296) ∧
    (shl1_loop x n i lsb).2 ≤ 1 ∧
    limbs ((shl1_loop x n i lsb).1 ++ [(shl1_loop x n i lsb).2]) = 2 * sumw x n i + lsb
  | 0, i, c, hc => by simp [shl1_loop, sumw, limbs, hc]
  | n + 1, i, c, hc => by
    have h1 := hx i
    obtain ⟨i1, i2, i3, i4⟩ := shl1_loop_spec x hx n (i + 1) ((x i >>> 31) &&& 1)
      (by rw [shl1_carry]; omega)
    simp only [shl1_loop, List.length_cons, List.cons_append, limbs_cons, sumw, List.mem_cons]
    refine ⟨by omega, ?_, i3, ?_⟩
    · intro w hw
      rcases hw with rfl | hw
      · rw [shl1_word _ _ hc]; omega
      · exact i2 w hw
    · rw [i4, shl1_word _ _ hc, shl1_carry]; omega

theorem shl1_loop_BN (x : Nat → Nat) (hx : ∀ i, x i < 4294967296) (c : Nat) (hc : c ≤ 1) :
    (shl1_loop x BN_ARRAY_SIZE 0 c).1.length = BN_ARRAY_SIZE ∧
    (∀ w ∈ (shl1_loop x BN_ARRAY_SIZE 0 c).1, w < 4294967296) ∧
    (shl1_loop x BN_ARRAY_SIZE 0 c).2 ≤ 1 ∧
    limbs (shl1_loop x BN_ARRAY_SIZE 0 c).1 <
      26959946667150639794667015087019630673637144422540572481103610249216 ∧
    limbs (shl1_loop x BN_ARRAY_SIZE 0 c).1 +
      26959946667150639794667015087019630673637144422540572481103610249216 *
        (shl1_loop x BN_ARRAY_SIZE 0 c).2 = 2 * sumw x BN_ARRAY_SIZE 0 + c := by
  obtain ⟨h1, h2, h3, h4⟩ := shl1_loop_spec x hx BN_ARRAY_SIZE 0 c hc
  have h5 := limbs_lt _ h2
  rw [limbs_append, h1] at h4
  rw [h1] at h5
  exact ⟨h1, h2, h3, h5, h4⟩

theorem WF_shl1 {a : bignum} (ha : a.WF) (lsb : Nat) (hl : lsb ≤ 1) :
    (bignum_shl1 a lsb).WF := by
  obtain ⟨h1, h2, _, _, _⟩ := shl1_loop_BN a.word (word_lt ha) lsb hl
  exact ⟨h1, h2, (to_i32_range _).1, (to_i32_range _).2⟩

theorem value_shl1 {a : bignum} (ha : a.WF) (lsb : Nat) (hl : lsb ≤ 1) :
    (bignum_shl1 a lsb).value = wrap256 (2 * a.value + lsb) := by
  obtain ⟨_, _, h3, h4, h5⟩ := shl1_loop_BN a.word (word_lt ha) lsb hl
  rw [sumw_word a ha.1] at h5
  have la := wf_limbs_lt ha
  obtain ⟨_, _, a3, a4⟩ := ha
  unfold bignum.value wrap256 bignum_shl1
  dsimp only
  rw [shl1_word _ _ h3]
  unfold to_i32 to_u32
  omega

/-! ## Construction from a native integer -/

theorem range'_from_int : List.range' 2 (BN_ARRAY_SIZE - 2) = [2, 3, 4, 5, 6] := by decide

theorem range'_abs : List.range' 1 (BN_ARRAY_SIZE - 1) = [1, 2, 3, 4, 5, 6] := by decide

theorem WF_from_int (i : Int) : (bignum_from_int i).WF := by
  refine ⟨by simp [bignum_from_int, BN_ARRAY_SIZE], ?_, (to_i32_range _).1, (to_i32_range _).2⟩
  intro x hx
  simp only [bignum_from_int, range'_from_int, List.map, List.mem_cons, land_UINT32_MAX,
    List.mem_nil_iff, or_false] at hx
  rcases hx with rfl | rfl | rfl | rfl | rfl | rfl | rfl
  · omega
  all_goals exact to_u32_lt _

theorem value_from_int (i : Int) (h1 : -9223372036854775808 ≤ i) (h2 : i < 9223372036854775808) :
    (bignum_from_int i).value = i := by
  simp only [bignum_from_int, bignum.value, range'_from_int, List.map, land_UINT32_MAX, limbs]
  unfold c_bool to_u64 to_u32 to_i32
  split <;> omega

/-! ## Absolute value -/

theorem WF_cases {a : bignum} (h : a.WF) :
    ∃ a0 a1 a2 a3 a4 a5 a6 s, a = ⟨[a0, a1, a2, a3, a4, a5, a6], s⟩ ∧
      a0 < 4294967296 ∧ a1 < 4294967296 ∧ a2 < 4294967296 ∧ a3 < 4294967296 ∧
      a4 < 4294967296 ∧ a5 < 4294967296 ∧ a6 < 4294967296 ∧
      -2147483648 ≤ s ∧ s < 2147483648 := by
  obtain ⟨l, s⟩ := a
  obtain ⟨hl, hb, h1, h2⟩ := h
  simp only [BN_ARRAY_SIZE] at hl
  dsimp only at h1 h2
  match l, hl with
  | [a0, a1, a2, a3, a4, a5, a6], _ =>
    refine ⟨a0, a1, a2, a3, a4, a5, a6, s, rfl, ?_⟩
    simp only [List.mem_cons, List.mem_singleton, forall_eq_or_imp, forall_eq] at hb
    simp at hb
    omega

theorem abs_of_nonneg {a : bignum} (ha : a.WF) (h : 0 ≤ a.num_and_sign) : bignum_abs a = a := by
  obtain ⟨a0, a1, a2, a3, a4, a5, a6, s, rfl, h0, _, _, _, _, _, _, s1, s2⟩ := WF_cases ha
  dsimp only at h
  have hm : to_i32 (-(c_bool (s < 0) : Int)) = 0 := by
    unfold c_bool to_i32; split <;> omega
  have hz : to_u32 0 = 0 := by decide
  have hs : to_i32 (to_u32 s) = s := by unfold to_i32 to_u32; omega
  simp only [bignum_abs, hm, hz, range'_abs, List.map, bignum.word, List.getD_cons_zero,
    List.getD_cons_succ, Nat.xor_zero, Nat.add_zero, Nat.mod_eq_of_lt h0, hs]

theorem abs_of_neg_eq {a0 a1 a2 a3 a4 a5 a6 : Nat} {s : Int}
    (h1 : a1 < 4294967296) (h2 : a2 < 4294967296) (h3 : a3 < 4294967296) (h4 : a4 < 4294967296)
    (h5 : a5 < 4294967296) (h6 : a6 < 4294967296) (s1 : -2147483648 ≤ s) (s2 : s < 0) :
    bignum_abs ⟨[a0, a1, a2, a3, a4, a5, a6], s⟩ =
      ⟨[4294967295 - (a0 + 4294967295) % 4294967296, 4294967295 - a1, 4294967295 - a2,
        4294967295 - a3, 4294967295 - a4, 4294967295 - a5, 4294967295 - a6], -s - 1⟩ := by
  have hm : to_i32 (-(c_bool (s < 0) : Int)) = -1 := by
    unfold c_bool to_i32; split <;> omega
  have hz : to_u32 (-1) = UINT32_MAX := by decide
  have hs : to_i32 (to_u32 s ^^^ UINT32_MAX) = -s - 1 := not_i32_eq s1 (by omega)
  have hw : (a0 + UINT32_MAX) % 4294967296 < 4294967296 := Nat.mod_lt _ (by decide)
  simp only [bignum_abs, hm, hz, range'_abs, List.map, bignum.word, List.getD_cons_zero,
    List.getD_cons_succ, hs, xor_UINT32_MAX h1, xor_UINT32_MAX h2, xor_UINT32_MAX h3,
    xor_UINT32_MAX h4, xor_UINT32_MAX h5, xor_UINT32_MAX h6, xor_UINT32_MAX hw]
  rfl

theorem WF_abs {a : bignum} (ha : a.WF) : (bignum_abs a).WF ∧ 0 ≤ (bignum_abs a).num_and_sign := by
  by_cases h : 0 ≤ a.num_and_sign
  · rw [abs_of_nonneg ha h]; exact ⟨ha, h⟩
  · obtain ⟨a0, a1, a2, a3, a4, a5, a6, s, rfl, h0, h1, h2, h3, h4, h5, h6, s1, s2⟩ := WF_cases ha
    dsimp only at h
    rw [abs_of_neg_eq h1 h2 h3 h4 h5 h6 s1 (by omega)]
    refine ⟨⟨rfl, ?_, ?_, ?_⟩, ?_⟩
    · intro x hx
      simp only [List.mem_cons, List.mem_singleton, List.mem_nil_iff, or_false] at hx
      omega
    all_goals dsimp only; omega

theorem value_abs_of_neg {a : bignum} (ha : a.WF) (h : a.num_and_sign < 0)
    (h0 : a.word 0 ≠ 0) : (bignum_abs a).value = -a.value := by
  obtain ⟨a0, a1, a2, a3, a4, a5, a6, s, rfl, b0, b1, b2, b3, b4, b5, b6, s1, s2⟩ := WF_cases ha
  dsimp only at h
  simp only [bignum.word, List.getD_cons_zero] at h0
  rw [abs_of_neg_eq b1 b2 b3 b4 b5 b6 s1 h]
  simp only [bignum.value, limbs]
  omega

theorem abs_of_neg {a : bignum} (ha : a.WF) (h : a.num_and_sign < 0) (h0 : a.word 0 ≠ 0) :
    bignum_abs a = bignum_neg a := by
  apply value_inj (WF_abs ha).1 (WF_neg ha)
  rw [value_abs_of_neg ha h h0, value_neg ha]
  have := value_range ha
  have hv : a.value ≠ -(2 : Int) ^ 255 := by
    obtain ⟨a0, a1, a2, a3, a4, a5, a6, s, rfl, b0, b1, b2, b3, b4, b5, b6, s1, s2⟩ :=
      WF_cases ha
    simp only [bignum.word, List.getD_cons_zero] at h0
    simp only [bignum.value, limbs]
    omega
  unfold wrap256
  omega

/-! ## Multiplication -/

theorem shift_unit_spec (u unit : Nat) (hu : u < 18446744073709551616) (hn : unit ≤ 7) :
    (bignum_from_uint_shift_unit u unit).WF ∧
    (bignum_from_uint_shift_unit u unit).value ≡ (u : Int) * 4294967296 ^ unit [ZMOD 2 ^ 256] := by
  have hd : u / 4294967296 < 4294967296 := by omega
  interval_cases unit <;>
  simp only [bignum_from_uint_shift_unit, bignum_init, BN_ARRAY_SIZE, List.replicate,
    List.set_cons_zero, List.set_cons_succ, land_UINT32_MAX, Nat.shiftRight_eq_div_pow,
    Nat.reduceAdd, Nat.reduceLT, Nat.reduceSub, Nat.reduceEqDiff, if_true, if_false,
    Nat.reducePow, Nat.mod_eq_of_lt hd] <;>
  (refine ⟨⟨rfl, ?_, ?_, ?_⟩, ?_⟩
   · intro x hx
     simp only [List.mem_cons, List.mem_singleton, List.mem_nil_iff, or_false] at hx
     omega
   · dsimp only; try unfold to_i32
     omega
   · dsimp only; try unfold to_i32
     omega
   · simp only [bignum.value, limbs, Int.ModEq]
     try unfold to_i32
     omega)

theorem wrap256_modEq (x : Int) : wrap256 x ≡ x [ZMOD 2 ^ 256] := by
  unfold wrap256 Int.ModEq; omega

theorem wrap256_of_range {x : Int} (h1 : -(2 : Int) ^ 255 ≤ x) (h2 : x < 2 ^ 255) :
    wrap256 x = x := by
  unfold wrap256; omega

theorem WF_init : bignum_init.WF := by decide

theorem value_init : bignum_init.value = 0 := by decide

theorem foldl_acc (f : bignum → Nat → bignum) (v : Nat → Int) :
    ∀ (l : List Nat) (c : bignum), c.WF →
      (∀ (d : bignum) (i : Nat), i ∈ l → d.WF →
        (f d i).WF ∧ (f d i).value ≡ d.value + v i [ZMOD 2 ^ 256]) →
      (l.foldl f c).WF ∧ (l.foldl f c).value ≡ c.value + (l.map v).sum [ZMOD 2 ^ 256]
  | [], c, hc, _ => by simpa using hc
  | i :: l, c, hc, hf => by
    obtain ⟨w1, e1⟩ := hf c i (List.mem_cons_self _ _) hc
    obtain ⟨w2, e2⟩ := foldl_acc f v l (f c i) w1
      (fun d j hj hd => hf d j (List.mem_cons_of_mem _ hj) hd)
    refine ⟨w2, ?_⟩
    simp only [List.foldl_cons, List.map_cons, List.sum_cons]
    calc (List.foldl f (f c i) l).value
        ≡ (f c i).value + (l.map v).sum [ZMOD 2 ^ 256] := e2
      _ ≡ c.value + v i + (l.map v).sum [ZMOD 2 ^ 256] := Int.ModEq.add_right _ e1
      _ = c.value + (v i + (l.map v).sum) := by ring

theorem add_shift_unit {c : bignum} (hc : c.WF) (p q unit : Nat) (hp : p < 4294967296)
    (hq : q < 4294967296) (hn : unit ≤ 7) :
    (bignum_add c (bignum_from_uint_shift_unit ((p * q) % 18446744073709551616) unit)).WF ∧
    (bignum_add c (bignum_from_uint_shift_unit ((p * q) % 18446744073709551616) unit)).value ≡
      c.value + (p : Int) * q * 4294967296 ^ unit [ZMOD 2 ^ 256] := by
  have hpq : p * q < 18446744073709551616 := by nlinarith
  rw [Nat.mod_eq_of_lt hpq]
  obtain ⟨w, e⟩ := shift_unit_spec (p * q) unit hpq hn
  refine ⟨WF_add hc w, ?_⟩
  rw [value_add hc w]
  calc wrap256 (c.value + (bignum_from_uint_shift_unit (p * q) unit).value)
      ≡ c.value + (bignum_from_uint_shift_unit (p * q) unit).value [ZMOD 2 ^ 256] :=
        wrap256_modEq _
    _ ≡ c.value + ((p * q : Nat) : Int) * 4294967296 ^ unit [ZMOD 2 ^ 256] :=
        Int.ModEq.add_left _ e
    _ = c.value + (p : Int) * q * 4294967296 ^ unit := by push_cast; ring

theorem mul_alg (x0 x1 x2 x3 x4 x5 x6 xs y0 y1 y2 y3 y4 y5 y6 ys : Int) :
    (x0 + 4294967296 * (x1 + 4294967296 * (x2 + 4294967296 * (x3 + 4294967296 * (x4 +
      4294967296 * (x5 + 4294967296 * (x6 + 4294967296 * 0)))))) + 2 ^ 224 * xs) *
    (y0 + 4294967296 * (y1 + 4294967296 * (y2 + 4294967296 * (y3 + 4294967296 * (y4 +
      4294967296 * (y5 + 4294967296 * (y6 + 4294967296 * 0)))))) + 2 ^ 224 * ys) -
    2 ^ 256 * (x1 * ys * 4294967296 ^ 0 +
      x2 * y6 * 4294967296 ^ 0 +
      x2 * ys * 4294967296 ^ 1 +
      x3 * y5 * 4294967296 ^ 0 +
      x3 * y6 * 4294967296 ^ 1 +
      x3 * ys * 4294967296 ^ 2 +
      x4 * y4 * 4294967296 ^ 0 +
      x4 * y5 * 4294967296 ^ 1 +
      x4 * y6 * 4294967296 ^ 2 +
      x4 * ys * 4294967296 ^ 3 +
      x5 * y3 * 4294967296 ^ 0 +
      x5 * y4 * 4294967296 ^ 1 +
      x5 * y5 * 4294967296 ^ 2 +
      x5 * y6 * 4294967296 ^ 3 +
      x5 * ys * 4294967296 ^ 4 +
      x6 * y2 * 4294967296 ^ 0 +
      x6 * y3 * 4294967296 ^ 1 +
      x6 * y4 * 4294967296 ^ 2 +
      x6 * y5 * 4294967296 ^ 3 +
      x6 * y6 * 4294967296 ^ 4 +
      x6 * ys * 4294967296 ^ 5 +
      xs * y1 * 4294967296 ^ 0 +
      xs * y2 * 4294967296 ^ 1 +
      xs * y3 * 4294967296 ^ 2 +
      xs * y4 * 4294967296 ^ 3 +
      xs * y5 * 4294967296 ^ 4 +
      xs * y6 * 4294967296 ^ 5 +
      xs * ys * 4294967296 ^ 6) =
    x0 * y0 * 4294967296 ^ 0 +
      x0 * y1 * 4294967296 ^ 1 +
      x0 * y2 * 4294967296 ^ 2 +
      x0 * y3 * 4294967296 ^ 3 +
      x0 * y4 * 4294967296 ^ 4 +
      x0 * y5 * 4294967296 ^ 5 +
      x0 * y6 * 4294967296 ^ 6 +
      x1 * y0 * 4294967296 ^ 1 +
      x1 * y1 * 4294967296 ^ 2 +
      x1 * y2 * 4294967296 ^ 3 +
      x1 * y3 * 4294967296 ^ 4 +
      x1 * y4 * 4294967296 ^ 5 +
      x1 * y5 * 4294967296 ^ 6 +
      x1 * y6 * 4294967296 ^ 7 +
      x2 * y0 * 4294967296 ^ 2 +
      x2 * y1 * 4294967296 ^ 3 +
      x2 * y2 * 4294967296 ^ 4 +
      x2 * y3 * 4294967296 ^ 5 +
      x2 * y4 * 4294967296 ^ 6 +
      x2 * y5 * 4294967296 ^ 7 +
      x3 * y0 * 4294967296 ^ 3 +
      x3 * y1 * 4294967296 ^ 4 +
      x3 * y2 * 4294967296 ^ 5 +
      x3 * y3 * 4294967296 ^ 6 +
      x3 * y4 * 4294967296 ^ 7 +
      x4 * y0 * 4294967296 ^ 4 +
      x4 * y1 * 4294967296 ^ 5 +
      x4 * y2 * 4294967296 ^ 6 +
      x4 * y3 * 4294967296 ^ 7 +
      x5 * y0 * 4294967296 ^ 5 +
      x5 * y1 * 4294967296 ^ 6 +
      x5 * y2 * 4294967296 ^ 7 +
      x6 * y0 * 4294967296 ^ 6 +
      x6 * y1 * 4294967296 ^ 7 +
      x0 * ys * 4294967296 ^ 7 +
      xs * y0 * 4294967296 ^ 7 := by
  ring

theorem range_BN : List.range BN_ARRAY_SIZE = [0, 1, 2, 3, 4, 5, 6] := by decide

theorem mul_inner {x y : bignum} (hx : x.WF) (hy : y.WF) (d : bignum) (i : Nat) (hd : d.WF) :
    (((List.range BN_ARRAY_SIZE).takeWhile (fun j => decide (i + j ≤ BN_ARRAY_SIZE))).foldl
        (fun c j => bignum_add c (bignum_from_uint_shift_unit
          ((x.word i * y.word j) % 18446744073709551616) (i + j))) d).WF ∧
    (((List.range BN_ARRAY_SIZE).takeWhile (fun j => decide (i + j ≤ BN_ARRAY_SIZE))).foldl
        (fun c j => bignum_add c (bignum_from_uint_shift_unit
          ((x.word i * y.word j) % 18446744073709551616) (i + j))) d).value ≡
      d.value + ((((List.range BN_ARRAY_SIZE).takeWhile
        (fun j => decide (i + j ≤ BN_ARRAY_SIZE))).map
          (fun j => (x.word i : Int) * y.word j * 4294967296 ^ (i + j))).sum)
      [ZMOD 2 ^ 256] := by
  apply foldl_acc _ _ _ d hd
  intro c j hj hc
  have hij : i + j ≤ 7 := by
    have := List.mem_takeWhile_imp hj
    simpa [BN_ARRAY_SIZE] using this
  exact add_shift_unit hc _ _ _ (word_lt hx i) (word_lt hy j) hij

theorem mul_outer {x y : bignum} (hx : x.WF) (hy : y.WF) :
    ((List.range BN_ARRAY_SIZE).foldl
      (fun c i =>
        ((List.range BN_ARRAY_SIZE).takeWhile (fun j => decide (i + j ≤ BN_ARRAY_SIZE))).foldl
          (fun c j => bignum_add c (bignum_from_uint_shift_unit
            ((x.word i * y.word j) % 18446744073709551616) (i + j))) c) bignum_init).WF ∧
    ((List.range BN_ARRAY_SIZE).foldl
      (fun c i =>
        ((List.range BN_ARRAY_SIZE).takeWhile (fun j => decide (i + j ≤ BN_ARRAY_SIZE))).foldl
          (fun c j => bignum_add c (bignum_from_uint_shift_unit
            ((x.word i * y.word j) % 18446744073709551616) (i + j))) c) bignum_init).value ≡
      bignum_init.value + (((List.range BN_ARRAY_SIZE).map (fun i =>
        ((((List.range BN_ARRAY_SIZE).takeWhile
          (fun j => decide (i + j ≤ BN_ARRAY_SIZE))).map
            (fun j => (x.word i : Int) * y.word j * 4294967296 ^ (i + j))).sum))).sum)
      [ZMOD 2 ^ 256] := by
  apply foldl_acc _ _ _ bignum_init WF_init
  intro d i _ hd
  exact mul_inner hx hy d i hd

theorem mul_accumulate_spec {x y : bignum} (hx : x.WF) (hy : y.WF)
    (sx : 0 ≤ x.num_and_sign) (sy : 0 ≤ y.num_and_sign) :
    (mul_accumulate x y).WF ∧
    (mul_accumulate x y).value ≡ x.value * y.value [ZMOD 2 ^ 256] := by
  obtain ⟨w1, e1⟩ := mul_outer hx hy
  have t1 : to_u64 y.num_and_sign < 4294967296 := by
    have := hy.2.2.2; unfold to_u64; omega
  have t2 : to_u64 x.num_and_sign < 4294967296 := by
    have := hx.2.2.2; unfold to_u64; omega
  obtain ⟨w2, e2⟩ := add_shift_unit w1 (x.word 0) (to_u64 y.num_and_sign) 7 (word_lt hx 0) t1
    (le_refl _)
  obtain ⟨w3, e3⟩ := add_shift_unit w2 (to_u64 x.num_and_sign) (y.word 0) 7 t2 (word_lt hy 0)
    (le_refl _)
  refine ⟨w3, ?_⟩
  have e4 := (e3.trans (Int.ModEq.add_right _ e2)).trans
    (Int.ModEq.add_right _ (Int.ModEq.add_right _ e1))
  refine e4.trans ?_
  have u1 : (to_u64 y.num_and_sign : Int) = y.num_and_sign := by
    have := hy.2.2.2; unfold to_u64; omega
  have u2 : (to_u64 x.num_and_sign : Int) = x.num_and_sign := by
    have := hx.2.2.2; unfold to_u64; omega
  rw [u1, u2, value_init]
  obtain ⟨x0, x1, x2, x3, x4, x5, x6, xs, rfl, _⟩ := WF_cases hx
  obtain ⟨y0, y1, y2, y3, y4, y5, y6, ys, rfl, _⟩ := WF_cases hy
  rw [Int.modEq_iff_dvd]
  simp only [range_BN, BN_ARRAY_SIZE, List.takeWhile, List.map, List.sum_cons, List.sum_nil,
    bignum.word, List.getD_cons_zero, List.getD_cons_succ, bignum.value, limbs, Nat.reduceAdd,
    Nat.reduceLeDiff, decide_True, decide_False]
  push_cast
  refine ⟨(x1 : Int) * ys * 4294967296 ^ 0 +
      (x2 : Int) * y6 * 4294967296 ^ 0 +
      (x2 : Int) * ys * 4294967296 ^ 1 +
      (x3 : Int) * y5 * 4294967296 ^ 0 +
      (x3 : Int) * y6 * 4294967296 ^ 1 +
      (x3 : Int) * ys * 4294967296 ^ 2 +
      (x4 : Int) * y4 * 4294967296 ^ 0 +
      (x4 : Int) * y5 * 4294967296 ^ 1 +
      (x4 : Int) * y6 * 4294967296 ^ 2 +
      (x4 : Int) * ys * 4294967296 ^ 3 +
      (x5 : Int) * y3 * 4294967296 ^ 0 +
      (x5 : Int) * y4 * 4294967296 ^ 1 +
      (x5 : Int) * y5 * 4294967296 ^ 2 +
      (x5 : Int) * y6 * 4294967296 ^ 3 +
      (x5 : Int) * ys * 4294967296 ^ 4 +
      (x6 : Int) * y2 * 4294967296 ^ 0 +
      (x6 : Int) * y3 * 4294967296 ^ 1 +
      (x6 : Int) * y4 * 4294967296 ^ 2 +
      (x6 : Int) * y5 * 4294967296 ^ 3 +
      (x6 : Int) * y6 * 4294967296 ^ 4 +
      (x6 : Int) * ys * 4294967296 ^ 5 +
      (xs : Int) * y1 * 4294967296 ^ 0 +
      (xs : Int) * y2 * 4294967296 ^ 1 +
      (xs : Int) * y3 * 4294967296 ^ 2 +
      (xs : Int) * y4 * 4294967296 ^ 3 +
      (xs : Int) * y5 * 4294967296 ^ 4 +
      (xs : Int) * y6 * 4294967296 ^ 5 +
      (xs : Int) * ys * 4294967296 ^ 6, ?_⟩
  have := mul_alg x0 x1 x2 x3 x4 x5 x6 xs y0 y1 y2 y3 y4 y5 y6 ys
  linear_combination this

theorem value_abs {a : bignum} (ha : a.WF) (ok : abs_ok a) :
    (bignum_abs a).value = if a.num_and_sign < 0 then -a.value else a.value := by
  by_cases h : a.num_and_sign < 0
  · rw [if_pos h]
    rcases ok with ok | ok
    · omega
    · exact value_abs_of_neg ha h ok
  · rw [if_neg h, abs_of_nonneg ha (by omega)]

theorem mul_spec {a b : bignum} (ha : a.WF) (hb : b.WF) (oka : abs_ok a) (okb : abs_ok b) :
    (bignum_mul a b).WF ∧ (bignum_mul a b).value ≡ a.value * b.value [ZMOD 2 ^ 256] := by
  obtain ⟨wa, na⟩ := WF_abs ha
  obtain ⟨wb, nb⟩ := WF_abs hb
  obtain ⟨wc, ec⟩ := mul_accumulate_spec wa wb na nb
  rw [value_abs ha oka, value_abs hb okb] at ec
  have en : (bignum_neg (mul_accumulate (bignum_abs a) (bignum_abs b))).value ≡
      -(mul_accumulate (bignum_abs a) (bignum_abs b)).value [ZMOD 2 ^ 256] := by
    rw [value_neg wc]; exact wrap256_modEq _
  unfold bignum_mul
  dsimp only
  by_cases h1 : a.num_and_sign < 0 <;> by_cases h2 : b.num_and_sign < 0 <;>
    simp only [h1, h2, if_true, if_false, decide_True, decide_False, bne_self_eq_false,
      Bool.true_bne, Bool.false_bne, Bool.not_true, Bool.not_false, Bool.false_eq_true] at ec ⊢
  · refine ⟨wc, ?_⟩
    rw [neg_mul_neg] at ec
    exact ec
  · refine ⟨WF_neg wc, en.trans ?_⟩
    have := ec.neg
    rw [neg_mul, neg_neg] at this
    exact this
  · refine ⟨WF_neg wc, en.trans ?_⟩
    have := ec.neg
    rw [mul_neg, neg_neg] at this
    exact this
  · exact ⟨wc, ec⟩

theorem abs_ok_of_nonneg {a : bignum} (ha : a.WF) (h : 0 ≤ a.value) : abs_ok a :=
  Or.inl ((value_nonneg_iff ha).1 h)

/-! ## Fibonacci numbers -/

theorem F_eq_fib : ∀ n, F n = Nat.fib n
  | 0 => rfl
  | 1 => rfl
  | n + 2 => by rw [F, F_eq_fib n, F_eq_fib (n + 1), Nat.fib_add_two, Nat.add_comm]

theorem fib_bound {n : Nat} (h : n ≤ 185) : Nat.fib n < 2 ^ 129 :=
  lt_of_le_of_lt (Nat.fib_mono h) (by norm_num)

theorem modEq_range {x y : Int} (h : x ≡ y [ZMOD 2 ^ 256]) (x1 : -(2 : Int) ^ 255 ≤ x)
    (x2 : x < 2 ^ 255) (y1 : -(2 : Int) ^ 255 ≤ y) (y2 : y < 2 ^ 255) : x = y := by
  unfold Int.ModEq at h; omega

theorem clz_from_spec : ∀ (n x : Nat), 0 < x → x < 2 ^ n →
    clz_from n x < n ∧ 2 ^ (n - 1 - clz_from n x) ≤ x ∧ x < 2 ^ (n - clz_from n x)
  | 0, x, h0, h => by simp at h; omega
  | n + 1, x, h0, h => by
    have hp : 0 < 2 ^ n := Nat.two_pow_pos _
    unfold clz_from
    split
    · next hb =>
      have : 0 < x / 2 ^ n := by
        generalize x / 2 ^ n = q at hb
        omega
      have := (Nat.div_pos_iff (by omega)).1 this
      exact ⟨by omega, by simpa using this, by simpa using h⟩
    · next hb =>
      have h2 : x / 2 ^ n < 2 := Nat.div_lt_of_lt_mul (by rw [← Nat.pow_succ]; exact h)
      have h3 : x / 2 ^ n = 0 := by
        generalize x / 2 ^ n = q at hb h2
        omega
      have h4 : x < 2 ^ n := (Nat.div_eq_zero_iff hp).1 h3
      obtain ⟨c1, c2, c3⟩ := clz_from_spec n x h0 h4
      refine ⟨by omega, ?_, ?_⟩
      · have e : n + 1 - 1 - (clz_from n x + 1) = n - 1 - clz_from n x := by omega
        rw [e]; exact c2
      · have e : n + 1 - (clz_from n x + 1) = n - clz_from n x := by omega
        rw [e]; exact c3

theorem fast_mask (k : Nat) (h0 : 0 < k) (h : k < 2 ^ 64) :
    ∃ p, 1 <<< (8 * 8 - 1 - clz k) = 2 ^ p ∧ 2 ^ p ≤ k ∧ k < 2 ^ (p + 1) := by
  obtain ⟨c1, c2, c3⟩ := clz_from_spec 64 k h0 h
  refine ⟨63 - clz k, ?_, c2, ?_⟩
  · rw [Nat.one_shiftLeft]
  · have e : 63 - clz k + 1 = 64 - clz_from 64 k := by unfold clz; omega
    rw [e]; exact c3

theorem bit_div (k p : Nat) :
    2 * (k / 2 ^ (p + 1)) + (decide (k &&& 2 ^ p ≠ 0)).toNat = k / 2 ^ p := by
  have hp : 0 < 2 ^ p := Nat.two_pow_pos _
  have e1 : k / 2 ^ (p + 1) = k / 2 ^ p / 2 := by
    rw [Nat.div_div_eq_div_mul, Nat.pow_succ]
  have e2 : (decide (k &&& 2 ^ p ≠ 0)).toNat = k / 2 ^ p % 2 := by
    rw [Nat.and_two_pow, ← Nat.toNat_testBit]
    cases k.testBit p
    · simp
    · simp [Nat.ne_of_gt hp]
  rw [e1, e2]; omega

theorem fib_cast_two_mul (n : Nat) :
    ((Nat.fib (2 * n) : Nat) : Int) = (2 * Nat.fib (n + 1) - Nat.fib n) * Nat.fib n := by
  have h : Nat.fib n ≤ 2 * Nat.fib (n + 1) := by
    have := @Nat.fib_le_fib_succ n; omega
  rw [Nat.fib_two_mul, Nat.cast_mul, Nat.cast_sub h]
  push_cast; ring

theorem fib_cast_two_mul_add_one (n : Nat) :
    ((Nat.fib (2 * n + 1) : Nat) : Int) = Nat.fib n * Nat.fib n + Nat.fib (n + 1) * Nat.fib (n + 1) := by
  rw [Nat.fib_two_mul_add_one]; push_cast; ring

theorem fast_step_spec {a b : bignum} (ha : a.WF) (hb : b.WF) (n : Nat) (hn : n ≤ 184)
    (va : a.value = Nat.fib n) (vb : b.value = Nat.fib (n + 1)) (bit : Bool) :
    (fib_fast_step a b bit).1.WF ∧ (fib_fast_step a b bit).2.WF ∧
    (fib_fast_step a b bit).1.value ≡ Nat.fib (2 * n + bit.toNat) [ZMOD 2 ^ 256] ∧
    (fib_fast_step a b bit).2.value ≡ Nat.fib (2 * n + bit.toNat + 1) [ZMOD 2 ^ 256] := by
  have f1 : Nat.fib n < 2 ^ 129 := fib_bound (by omega)
  have f2 : Nat.fib (n + 1) < 2 ^ 129 := fib_bound (by omega)
  have f3 : Nat.fib n ≤ Nat.fib (n + 1) := Nat.fib_le_fib_succ
  have w1 := WF_shl1 hb 0 (by omega)
  have v1 : (bignum_shl1 b 0).value = 2 * Nat.fib (n + 1) := by
    rw [value_shl1 hb 0 (by omega), vb]
    unfold wrap256; omega
  have w2 := WF_sub w1 ha
  have v2 : (bignum_sub (bignum_shl1 b 0) a).value = 2 * Nat.fib (n + 1) - Nat.fib n := by
    rw [value_sub w1 ha, v1, va]
    unfold wrap256; omega
  obtain ⟨w3, v3⟩ := mul_spec w2 ha (abs_ok_of_nonneg w2 (by rw [v2]; omega))
    (abs_ok_of_nonneg ha (by rw [va]; omega))
  rw [v2, va, ← fib_cast_two_mul] at v3
  obtain ⟨w4, v4⟩ := mul_spec hb hb (abs_ok_of_nonneg hb (by rw [vb]; omega))
    (abs_ok_of_nonneg hb (by rw [vb]; omega))
  obtain ⟨w5, v5⟩ := mul_spec ha ha (abs_ok_of_nonneg ha (by rw [va]; omega))
    (abs_ok_of_nonneg ha (by rw [va]; omega))
  rw [vb] at v4
  rw [va] at v5
  have w6 := WF_add w5 w4
  have v6 : (bignum_add (bignum_mul a a) (bignum_mul b b)).value ≡
      Nat.fib (2 * n + 1) [ZMOD 2 ^ 256] := by
    rw [value_add w5 w4, fib_cast_two_mul_add_one]
    exact (wrap256_modEq _).trans (Int.ModEq.add v5 v4)
  have w7 := WF_add w3 w6
  have v7 : (bignum_add (bignum_mul (bignum_sub (bignum_shl1 b 0) a) a)
      (bignum_add (bignum_mul a a) (bignum_mul b b))).value ≡
      Nat.fib (2 * n + 1 + 1) [ZMOD 2 ^ 256] := by
    have e : Nat.fib (2 * n + 1 + 1) = Nat.fib (2 * n) + Nat.fib (2 * n + 1) := Nat.fib_add_two
    rw [value_add w3 w6, e, Nat.cast_add]
    exact (wrap256_modEq _).trans (Int.ModEq.add v3 v6)
  cases bit
  · simp only [fib_fast_step, Bool.toNat_false, Nat.add_zero, Bool.false_eq_true, if_false]
    exact ⟨w3, w6, v3, v6⟩
  · simp only [fib_fast_step, Bool.toNat_true, if_true]
    exact ⟨w6, w7, v6, v7⟩

theorem fib_368_lt {k : Nat} (hk : k ≤ 368) : (Nat.fib k : Int) < 2 ^ 255 := by
  have h : Nat.fib k < 2 ^ 255 := lt_of_le_of_lt (Nat.fib_mono hk) (by norm_num)
  exact_mod_cast h

theorem fast_loop_zero (k fuel : Nat) (s : bignum × bignum) : fib_fast_loop k fuel 0 s = s := by
  cases fuel <;> simp [fib_fast_loop]

theorem fast_loop_spec (k : Nat) (hk : k ≤ 368) : ∀ (p fuel : Nat) (a b : bignum), p < fuel →
    a.WF → b.WF → a.value = Nat.fib (k / 2 ^ (p + 1)) →
    b.value = Nat.fib (k / 2 ^ (p + 1) + 1) →
    (fib_fast_loop k fuel (2 ^ p) (a, b)).1.WF ∧
    (fib_fast_loop k fuel (2 ^ p) (a, b)).1.value = Nat.fib k
  | p, 0, _, _, h, _, _, _, _ => by omega
  | 0, fuel + 1, a, b, _, ha, hb, va, vb => by
    have hn : k / 2 ^ (0 + 1) ≤ 184 := by
      rw [Nat.zero_add, Nat.pow_one]; omega
    obtain ⟨w1, _, v1, _⟩ := fast_step_spec ha hb _ hn va vb (decide (k &&& 2 ^ 0 ≠ 0))
    rw [bit_div, Nat.pow_zero, Nat.div_one] at v1
    have e : fib_fast_loop k (fuel + 1) (2 ^ 0) (a, b) =
        fib_fast_step a b (decide (k &&& 2 ^ 0 ≠ 0)) := by
      rw [fib_fast_loop, if_pos (by decide)]
      exact fast_loop_zero _ _ _
    rw [e]
    have r := value_range w1
    have f := fib_368_lt hk
    exact ⟨w1, modEq_range v1 r.1 r.2 (by omega) f⟩
  | p + 1, fuel + 1, a, b, h, ha, hb, va, vb => by
    have hp : 0 < 2 ^ (p + 1) := Nat.two_pow_pos _
    have hn : k / 2 ^ (p + 1 + 1) ≤ 184 := by
      have : k / 2 ^ (p + 1 + 1) ≤ k / 2 := by
        apply Nat.div_le_div_left _ (by decide)
        calc 2 = 2 ^ 1 := rfl
          _ ≤ 2 ^ (p + 1 + 1) := Nat.pow_le_pow_right (by decide) (by omega)
      omega
    obtain ⟨w1, w2, v1, v2⟩ :=
      fast_step_spec ha hb _ hn va vb (decide (k &&& 2 ^ (p + 1) ≠ 0))
    rw [bit_div] at v1 v2
    have hn2 : k / 2 ^ (p + 1) ≤ 184 := by
      have : k / 2 ^ (p + 1) ≤ k / 2 := by
        apply Nat.div_le_div_left _ (by decide)
        calc 2 = 2 ^ 1 := rfl
          _ ≤ 2 ^ (p + 1) := Nat.pow_le_pow_right (by decide) (by omega)
      omega
    have f1 : Nat.fib (k / 2 ^ (p + 1)) < 2 ^ 129 := fib_bound (by omega)
    have f2 : Nat.fib (k / 2 ^ (p + 1) + 1) < 2 ^ 129 := fib_bound (by omega)
    have r1 := value_range w1
    have r2 := value_range w2
    have e1 := modEq_range v1 r1.1 r1.2 (by omega) (by omega)
    have e2 := modEq_range v2 r2.1 r2.2 (by omega) (by omega)
    have e : fib_fast_loop k (fuel + 1) (2 ^ (p + 1)) (a, b) =
        fib_fast_loop k fuel (2 ^ p)
          ((fib_fast_step a b (decide (k &&& 2 ^ (p + 1) ≠ 0))).1,
           (fib_fast_step a b (decide (k &&& 2 ^ (p + 1) ≠ 0))).2) := by
      rw [fib_fast_loop, if_pos hp]
      have : 2 ^ (p + 1) >>> 1 = 2 ^ p := by
        rw [Nat.shiftRight_eq_div_pow, Nat.pow_succ]; omega
      rw [this]
    rw [e]
    exact fast_loop_spec k hk p fuel _ _ (by omega) w1 w2 e1 e2

theorem fast_spec (k : Int) (h0 : 0 ≤ k) (hk : k ≤ 368) :
    (fib_bignum_fast k).WF ∧ (fib_bignum_fast k).value = Nat.fib k.toNat := by
  unfold fib_bignum_fast
  split
  · next h1 =>
    refine ⟨WF_from_int k, ?_⟩
    rw [value_from_int k (by omega) (by omega)]
    have : k = 0 ∨ k = 1 := by omega
    rcases this with rfl | rfl <;> rfl
  · next h1 =>
    have e : to_u64 k = k.toNat := by unfold to_u64; omega
    obtain ⟨p, hm, p1, p2⟩ := fast_mask k.toNat (by omega)
      (lt_of_le_of_lt (show k.toNat ≤ 368 by omega) (by norm_num))
    dsimp only
    rw [e, hm]
    have hp : p < 32 := by
      by_contra hc
      have : 2 ^ 32 ≤ 2 ^ p := Nat.pow_le_pow_right (by decide) (by omega)
      omega
    have hz : k.toNat / 2 ^ (p + 1) = 0 := Nat.div_eq_of_lt p2
    apply fast_loop_spec k.toNat (by omega) p 32 _ _ hp (WF_from_int 0) (WF_from_int 1)
    · rw [hz]; decide
    · rw [hz]; decide

/-! ## The naive loop -/

theorem orig_loop_spec : ∀ (fuel m j : Nat) (a b r : bignum), m ≤ fuel → a.WF → b.WF →
    a.value ≡ Nat.fib j [ZMOD 2 ^ 256] → b.value ≡ Nat.fib (j + 1) [ZMOD 2 ^ 256] →
    (fib_orig_loop fuel ((m : Int) + 1) (a, b, r)).2.1.WF ∧
    (fib_orig_loop fuel ((m : Int) + 1) (a, b, r)).2.1.value ≡
      Nat.fib (j + m + 1) [ZMOD 2 ^ 256] ∧
    (0 < m ∨ r = b →
      (fib_orig_loop fuel ((m : Int) + 1) (a, b, r)).2.2 =
        (fib_orig_loop fuel ((m : Int) + 1) (a, b, r)).2.1)
  | 0, m, j, a, b, r, h, ha, hb, va, vb => by
    have : m = 0 := by omega
    subst this
    simp only [fib_orig_loop]
    exact ⟨hb, vb, fun h => by rcases h with h | h; omega; exact h⟩
  | fuel + 1, 0, j, a, b, r, h, ha, hb, va, vb => by
    have e : fib_orig_loop (fuel + 1) (((0 : Nat) : Int) + 1) (a, b, r) = (a, b, r) := by
      rw [fib_orig_loop, if_neg (by norm_num)]
    rw [e]
    exact ⟨hb, vb, fun h => by rcases h with h | h; omega; exact h⟩
  | fuel + 1, m + 1, j, a, b, r, h, ha, hb, va, vb => by
    have e : fib_orig_loop (fuel + 1) (((m + 1 : Nat) : Int) + 1) (a, b, r) =
        fib_orig_loop fuel ((m : Int) + 1) (b, bignum_add a b, bignum_add a b) := by
      rw [fib_orig_loop, if_pos (by push_cast; omega)]
      dsimp only
      congr 1
      push_cast; ring
    rw [e]
    have w := WF_add ha hb
    have v : (bignum_add a b).value ≡ Nat.fib (j + 1 + 1) [ZMOD 2 ^ 256] := by
      have e2 : Nat.fib (j + 1 + 1) = Nat.fib j + Nat.fib (j + 1) := Nat.fib_add_two
      rw [value_add ha hb, e2, Nat.cast_add]
      exact (wrap256_modEq _).trans (Int.ModEq.add va vb)
    obtain ⟨i1, i2, i3⟩ := orig_loop_spec fuel m (j + 1) b (bignum_add a b) (bignum_add a b)
      (by omega) hb w vb v
    refine ⟨i1, ?_, fun _ => i3 (Or.inr rfl)⟩
    have e3 : j + (m + 1) + 1 = j + 1 + m + 1 := by omega
    rw [e3]; exact i2

theorem orig_spec (k : Int) (h0 : 0 ≤ k) (hk : k ≤ 368) (result : bignum) :
    (fib_bignum_orig k result).WF ∧ (fib_bignum_orig k result).value = Nat.fib k.toNat := by
  unfold fib_bignum_orig
  split
  · next h1 =>
    refine ⟨WF_from_int k, ?_⟩
    rw [value_from_int k (by omega) (by omega)]
    have : k = 0 ∨ k = 1 := by omega
    rcases this with rfl | rfl <;> rfl
  · next h1 =>
    obtain ⟨m, hm⟩ : ∃ m : Nat, k = (m : Int) + 1 ∧ 0 < m ∧ m + 1 = k.toNat :=
      ⟨k.toNat - 1, by omega, by omega, by omega⟩
    obtain ⟨i1, i2, i3⟩ := orig_loop_spec k.toNat m 0 (bignum_from_int 0) (bignum_from_int 1)
      result (by omega) (WF_from_int 0) (WF_from_int 1)
      (by rw [value_from_int 0 (by decide) (by decide)]; rfl)
      (by rw [value_from_int 1 (by decide) (by decide)]; rfl)
    have e := i3 (Or.inl hm.2.1)
    rw [← hm.1] at i1 i2 e
    rw [e]
    refine ⟨i1, ?_⟩
    rw [Nat.zero_add, hm.2.2] at i2
    have r := value_range i1
    have f := fib_368_lt (show k.toNat ≤ 368 by omega)
    exact modEq_range i2 r.1 r.2 (by omega) f

/-! ## Bit patterns -/

theorem toNat_lt {a : bignum} (h : a.WF) : a.toNat < 2 ^ 256 := by
  have h1 := wf_limbs_lt h
  have h2 := to_u32_lt a.num_and_sign
  unfold bignum.toNat
  omega

theorem toNat_value {a : bignum} (h : a.WF) : (a.toNat : Int) = a.value % 2 ^ 256 := by
  have h1 := wf_limbs_lt h
  obtain ⟨_, _, h3, h4⟩ := h
  unfold bignum.toNat bignum.value to_u32
  omega

theorem value_toNat {a : bignum} (h : a.WF) : a.value = wrap256 a.toNat := by
  have h1 := wf_limbs_lt h
  obtain ⟨_, _, h3, h4⟩ := h
  unfold bignum.toNat bignum.value to_u32 wrap256
  omega

theorem toNat_inj {a b : bignum} (ha : a.WF) (hb : b.WF) (h : a.toNat = b.toNat) : a = b := by
  apply value_inj ha hb
  rw [value_toNat ha, value_toNat hb, h]

theorem top_neg_iff {a : bignum} (h : a.WF) : a.num_and_sign < 0 ↔ 2 ^ 255 ≤ a.toNat := by
  have h1 := wf_limbs_lt h
  obtain ⟨_, _, h3, h4⟩ := h
  unfold bignum.toNat to_u32
  omega

theorem top_bit {a : bignum} (h : a.WF) : c_bool (a.num_and_sign < 0) = a.toNat / 2 ^ 255 := by
  have h1 := toNat_lt h
  have h2 := top_neg_iff h
  unfold c_bool
  split <;> omega

theorem toNat_add {a b : bignum} (ha : a.WF) (hb : b.WF) :
    (bignum_add a b).toNat = (a.toNat + b.toNat) % 2 ^ 256 := by
  have h1 := toNat_value (WF_add ha hb)
  have h2 := toNat_value ha
  have h3 := toNat_value hb
  rw [value_add ha hb] at h1
  unfold wrap256 at h1
  omega

theorem toNat_sub {a b : bignum} (ha : a.WF) (hb : b.WF) :
    (bignum_sub a b).toNat = (a.toNat + 2 ^ 256 - b.toNat) % 2 ^ 256 := by
  have h1 := toNat_value (WF_sub ha hb)
  have h2 := toNat_value ha
  have h3 := toNat_value hb
  have h4 := toNat_lt hb
  rw [value_sub ha hb] at h1
  unfold wrap256 at h1
  omega

theorem toNat_shl1 {a : bignum} (ha : a.WF) (lsb : Nat) (hl : lsb ≤ 1) :
    (bignum_shl1 a lsb).toNat = (2 * a.toNat + lsb) % 2 ^ 256 := by
  have h1 := toNat_value (WF_shl1 ha lsb hl)
  have h2 := toNat_value ha
  rw [value_shl1 ha lsb hl] at h1
  unfold wrap256 at h1
  omega

theorem toNat_init : bignum_init.toNat = 0 := by decide

/-! ## Shift right by one -/

theorem shr1_word (w msb : Nat) (hw : w < 4294967296) (hm : msb ≤ 1) :
    (w >>> 1) ||| ((msb <<< 31) % 4294967296) = w / 2 + 2147483648 * msb := by
  have e1 : w >>> 1 = w / 2 := by rw [Nat.shiftRight_eq_div_pow]
  have e2 : (msb <<< 31) % 4294967296 = 2 ^ 31 * msb := by
    rw [Nat.shiftLeft_eq]; omega
  rw [e1, e2, Nat.lor_comm, ← Nat.mul_add_lt_is_or (by omega)]
  omega

theorem range_shr1 (x : Nat → Nat) (c : Nat) : shr1_loop x BN_ARRAY_SIZE c =
    [(x 0 >>> 1) ||| (((x 1 &&& 1) <<< 31) % 4294967296),
     (x 1 >>> 1) ||| (((x 2 &&& 1) <<< 31) % 4294967296),
     (x 2 >>> 1) ||| (((x 3 &&& 1) <<< 31) % 4294967296),
     (x 3 >>> 1) ||| (((x 4 &&& 1) <<< 31) % 4294967296),
     (x 4 >>> 1) ||| (((x 5 &&& 1) <<< 31) % 4294967296),
     (x 5 >>> 1) ||| (((x 6 &&& 1) <<< 31) % 4294967296),
     (x 6 >>> 1) ||| ((c <<< 31) % 4294967296)] := by
  simp [shr1_loop, BN_ARRAY_SIZE]

theorem shr1_spec {a : bignum} (ha : a.WF) (msb : Nat) (hm : msb ≤ 1) :
    (bignum_shr1 a msb).WF ∧ (bignum_shr1 a msb).toNat = a.toNat / 2 + 2 ^ 255 * msb := by
  obtain ⟨a0, a1, a2, a3, a4, a5, a6, s, rfl, b0, b1, b2, b3, b4, b5, b6, s1, s2⟩ := WF_cases ha
  have hu := to_u32_lt s
  have m1 : ∀ w : Nat, w % 2 ≤ 1 := fun w => by omega
  simp only [bignum_shr1, range_shr1, bignum.word, List.getD_cons_zero, List.getD_cons_succ,
    Nat.and_one_is_mod, shr1_word _ _ b0 (m1 _), shr1_word _ _ b1 (m1 _), shr1_word _ _ b2 (m1 _),
    shr1_word _ _ b3 (m1 _), shr1_word _ _ b4 (m1 _), shr1_word _ _ b5 (m1 _),
    shr1_word _ _ b6 (m1 _), shr1_word _ _ hu hm]
  refine ⟨⟨rfl, ?_, (to_i32_range _).1, (to_i32_range _).2⟩, ?_⟩
  · intro x hx
    simp only [List.mem_cons, List.mem_singleton, List.mem_nil_iff, or_false] at hx
    omega
  · simp only [bignum.toNat, limbs, to_u32_to_i32]
    unfold to_u32
    omega

/-! ## Restoring division -/

theorem divrem_step_toNat {b : bignum} (hb : b.WF) (s : bignum × bignum) (h1 : s.1.WF)
    (h2 : s.2.WF) :
    (divrem_step b s).1.WF ∧ (divrem_step b s).2.WF ∧
    ((divrem_step b s).1.toNat, (divrem_step b s).2.toNat) =
      nat_divrem_step b.toNat (s.1.toNat, s.2.toNat) := by
  have ws := WF_sub h2 hb
  have c1 := c_bool_le (s.1.num_and_sign < 0)
  have tb := top_bit h1
  have ts := toNat_sub h2 hb
  have tn := top_neg_iff ws
  unfold divrem_step nat_divrem_step
  dsimp only
  by_cases hs : (bignum_sub s.2 b).num_and_sign ≥ 0
  · have hd : (s.2.toNat + 2 ^ 256 - b.toNat) % 2 ^ 256 < 2 ^ 255 := by omega
    rw [if_pos hs, if_pos hd]
    refine ⟨WF_shl1 h1 1 (le_refl _), WF_shl1 ws _ c1, ?_⟩
    rw [toNat_shl1 h1 1 (le_refl _), toNat_shl1 ws _ c1, tb, ts]
  · have hd : ¬ (s.2.toNat + 2 ^ 256 - b.toNat) % 2 ^ 256 < 2 ^ 255 := by omega
    have wa := WF_add ws hb
    rw [if_neg hs, if_neg hd]
    refine ⟨WF_shl1 h1 0 (by omega), WF_shl1 wa _ c1, ?_⟩
    rw [toNat_shl1 h1 0 (by omega), toNat_shl1 wa _ c1, tb, toNat_add ws hb, ts]
    rfl

theorem shift_lemma (P M l Q qbit : Nat) (hPM : 2 * P * M = 2 ^ 256) (hl : l < 2 * P)
    (hQ : Q < M) (hq : qbit ≤ 1) :
    ∃ t l', l = t * P + l' ∧ t ≤ 1 ∧ l' < P ∧ (l * M + Q) / 2 ^ 255 = t ∧
      (2 * (l * M + Q) + qbit) % 2 ^ 256 = l' * (2 * M) + (2 * Q + qbit) := by
  have hP : 0 < P := by
    rcases Nat.eq_zero_or_pos P with h | h
    · rw [h] at hPM; simp at hPM
    · exact h
  have e0 : l = l / P * P + l % P := by
    have := Nat.div_add_mod l P
    rw [Nat.mul_comm] at this
    exact this.symm
  have e1 : l / P < 2 := Nat.div_lt_of_lt_mul (by omega)
  have e2 : l % P < P := Nat.mod_lt _ hP
  generalize l / P = t at e0 e1
  generalize l % P = l' at e0 e2
  have e3 : (l' + 1) * M ≤ P * M := Nat.mul_le_mul_right _ (by omega)
  have e4 : (l' + 1) * M = l' * M + M := by ring
  have e5 : l * M = t * (P * M) + l' * M := by rw [e0]; ring
  have e6 : 2 * P * M = 2 * (P * M) := by ring
  have e7 : l' * (2 * M) = 2 * (l' * M) := by ring
  refine ⟨t, l', e0, by omega, e2, ?_, ?_⟩
  · rw [e5]
    generalize l' * M = X at *
    generalize P * M = K at *
    have : t = 0 ∨ t = 1 := by omega
    rcases this with h | h <;> subst h <;> omega
  · rw [e5, e7]
    generalize l' * M = X at *
    generalize P * M = K at *
    have : t = 0 ∨ t = 1 := by omega
    rcases this with h | h <;> subst h <;> omega

theorem div_inv_step (B b P M qn rn : Nat) (hb : 0 < b) (hb2 : b < 2 ^ 255)
    (h : div_inv B b (2 * P) M qn rn) :
    div_inv B b P (2 * M) (nat_divrem_step b (qn, rn)).1 (nat_divrem_step b (qn, rn)).2 := by
  obtain ⟨h, t, l, Q, r, hPM, hB, ht, hl, hh, hr, hhM, hq, hrn⟩ := h
  have bq : Q ≤ b * Q := Nat.le_mul_of_pos_left _ hb
  have hQ : Q < M := by omega
  by_cases hc : b ≤ rn
  · obtain ⟨t', l', el, ht', hl', etop, eq'⟩ := shift_lemma P M l Q 1 hPM hl hQ (le_refl _)
    have hd : (rn + 2 ^ 256 - b) % 2 ^ 256 = rn - b := by omega
    have e1 : b * (2 * Q + 1) = 2 * (b * Q) + b := by ring
    have e2 : (2 * h + t) * (2 * P) = h * (2 * (2 * P)) + t * (2 * P) := by ring
    have e3 : (2 * h + t) * (2 * P) + t' * P + l' = B := by rw [e2, hB, el]; ring
    have e4 : P * (2 * M) = 2 ^ 256 := by rw [← hPM]; ring
    refine ⟨2 * h + t, t', l', 2 * Q + 1, rn - b, e4, e3.symm, ht', hl', by omega,
      by omega, by omega, ?_, ?_⟩
    · simp only [nat_divrem_step, hd]
      rw [if_pos (by omega), hq, eq']
    · simp only [nat_divrem_step, hd]
      rw [if_pos (by omega), hq, etop]
      dsimp only
      omega
  · obtain ⟨t', l', el, ht', hl', etop, eq'⟩ := shift_lemma P M l Q 0 hPM hl hQ (by omega)
    have hd : (rn + 2 ^ 256 - b) % 2 ^ 256 = rn + 2 ^ 256 - b := by omega
    have hd2 : (rn + 2 ^ 256 - b + b) % 2 ^ 256 = rn := by omega
    have e1 : b * (2 * Q) = 2 * (b * Q) := by ring
    have e2 : (2 * h + t) * (2 * P) = h * (2 * (2 * P)) + t * (2 * P) := by ring
    have e3 : (2 * h + t) * (2 * P) + t' * P + l' = B := by rw [e2, hB, el]; ring
    have e4 : P * (2 * M) = 2 ^ 256 := by rw [← hPM]; ring
    refine ⟨2 * h + t, t', l', 2 * Q, rn, e4, e3.symm, ht', hl', by omega,
      by omega, by omega, ?_, ?_⟩
    · simp only [nat_divrem_step, hd]
      rw [if_neg (by omega), hq]
      simpa using eq'
    · simp only [nat_divrem_step, hd, hd2]
      rw [if_neg (by omega), hq, etop]
      dsimp only
      omega

theorem div_inv0_step (B P M qn rn : Nat) (hB : B < 2 ^ 256)
    (h : div_inv0 B (2 * P) M qn rn) :
    div_inv0 B P (2 * M) (nat_divrem_step 0 (qn, rn)).1 (nat_divrem_step 0 (qn, rn)).2 := by
  obtain ⟨h, t, l, hPM, hBe, ht, hl, hhM, hq, hrn⟩ := h
  have hM : 0 < M := by omega
  have hP : 0 < P := by
    rcases Nat.eq_zero_or_pos P with h | h
    · rw [h] at hPM; simp at hPM
    · exact h
  obtain ⟨t', l', el, ht', hl', etop, eq'⟩ := shift_lemma P M l (M - 1) 1 hPM hl (by omega)
    (le_refl _)
  have e2 : (2 * h + t) * (2 * P) = h * (2 * (2 * P)) + t * (2 * P) := by ring
  have e3 : (2 * h + t) * (2 * P) + t' * P + l' = B := by rw [e2, hBe, el]; ring
  have e4 : P * (2 * M) = 2 ^ 256 := by rw [← hPM]; ring
  have e5 : (2 * h + t) * (2 * P) ≤ B := by omega
  have e6 : (2 * h + t) * 2 ≤ (2 * h + t) * (2 * P) := Nat.mul_le_mul_left _ (by omega)
  have hd : (rn + 2 ^ 256 - 0) % 2 ^ 256 = rn := by omega
  refine ⟨2 * h + t, t', l', e4, e3.symm, ht', hl', by omega, ?_, ?_⟩
  · simp only [nat_divrem_step, hd]
    rw [if_pos (by omega), hq, eq']
    dsimp only
    omega
  · simp only [nat_divrem_step, hd]
    rw [if_pos (by omega), hq, etop]
    dsimp only
    omega

theorem divrem_loop_inv {b : bignum} (hb : b.WF) (h0 : 0 < b.toNat) (h255 : b.toNat < 2 ^ 255)
    (B : Nat) : ∀ (n M : Nat) (s : bignum × bignum), s.1.WF → s.2.WF →
    div_inv B b.toNat (2 ^ n) M s.1.toNat s.2.toNat →
    (divrem_loop b n s).1.WF ∧ (divrem_loop b n s).2.WF ∧
      div_inv B b.toNat 1 (M * 2 ^ n) (divrem_loop b n s).1.toNat (divrem_loop b n s).2.toNat
  | 0, M, s, h1, h2, hi => by
    simp only [divrem_loop, Nat.pow_zero, Nat.mul_one] at hi ⊢
    exact ⟨h1, h2, hi⟩
  | n + 1, M, s, h1, h2, hi => by
    obtain ⟨w1, w2, e⟩ := divrem_step_toNat hb s h1 h2
    rw [Nat.pow_succ, Nat.mul_comm] at hi
    have hs := div_inv_step B b.toNat (2 ^ n) M _ _ h0 h255 hi
    rw [← e] at hs
    have := divrem_loop_inv hb h0 h255 B n (2 * M) (divrem_step b s) w1 w2 hs
    have e2 : M * 2 ^ (n + 1) = 2 * M * 2 ^ n := by rw [Nat.pow_succ]; ring
    rw [divrem_loop, e2]
    exact this

theorem divrem_loop_inv0 {b : bignum} (hb : b.WF) (h0 : b.toNat = 0)
    (B : Nat) (hB : B < 2 ^ 256) : ∀ (n M : Nat) (s : bignum × bignum), s.1.WF → s.2.WF →
    div_inv0 B (2 ^ n) M s.1.toNat s.2.toNat →
    (divrem_loop b n s).1.WF ∧ (divrem_loop b n s).2.WF ∧
      div_inv0 B 1 (M * 2 ^ n) (divrem_loop b n s).1.toNat (divrem_loop b n s).2.toNat
  | 0, M, s, h1, h2, hi => by
    simp only [divrem_loop, Nat.pow_zero, Nat.mul_one] at hi ⊢
    exact ⟨h1, h2, hi⟩
  | n + 1, M, s, h1, h2, hi => by
    obtain ⟨w1, w2, e⟩ := divrem_step_toNat hb s h1 h2
    rw [Nat.pow_succ, Nat.mul_comm] at hi
    have hs := div_inv0_step B (2 ^ n) M _ _ hB hi
    rw [h0] at e
    rw [← e] at hs
    have := divrem_loop_inv0 hb h0 B hB n (2 * M) (divrem_step b s) w1 w2 hs
    have e2 : M * 2 ^ (n + 1) = 2 * M * 2 ^ n := by rw [Nat.pow_succ]; ring
    rw [divrem_loop, e2]
    exact this

theorem divrem_rounds : 4 * (BN_ARRAY_SIZE + 1) * 8 = 256 := by decide

theorem divrem_unfold (a b : bignum) : bignum_divrem a b =
    (fun S : bignum × bignum => (S.1, bignum_shr1 S.2 0))
      (divrem_loop b 256 (bignum_shl1 a 0,
        bignum_shl1 bignum_init (c_bool (a.num_and_sign < 0)))) := by
  unfold bignum_divrem
  rw [divrem_rounds]

theorem divrem_post (a b : bignum) (S : bignum × bignum) (h0 : 0 < b.toNat)
    (key : S.1.WF ∧ S.2.WF ∧ div_inv (2 * a.toNat) b.toNat 1 (1 * 2 ^ 256) S.1.toNat S.2.toNat) :
    ((fun S : bignum × bignum => (S.1, bignum_shr1 S.2 0)) S).1.WF ∧
    ((fun S : bignum × bignum => (S.1, bignum_shr1 S.2 0)) S).2.WF ∧
    ((fun S : bignum × bignum => (S.1, bignum_shr1 S.2 0)) S).1.toNat = a.toNat / b.toNat ∧
    ((fun S : bignum × bignum => (S.1, bignum_shr1 S.2 0)) S).2.toNat = a.toNat % b.toNat := by
  obtain ⟨v1, v2, h, t, l, Q, r, hPM, hB, ht, hl, hh, hr, hhM, hq, hrn⟩ := key
  obtain ⟨v3, e3⟩ := shr1_spec v2 0 (by omega)
  have hl0 : l = 0 := by omega
  have ht0 : t = 0 := by omega
  have hhA : h = a.toNat := by omega
  have hdm := (Nat.div_mod_unique h0).2 ⟨(by omega : r + b.toNat * Q = a.toNat), hr⟩
  dsimp only
  refine ⟨v1, v3, ?_, ?_⟩
  · rw [hq, hl0, hdm.1]; omega
  · rw [e3, hrn, hdm.2]; omega

theorem divrem_spec {a b : bignum} (ha : a.WF) (hb : b.WF) (h0 : 0 < b.toNat)
    (h255 : b.toNat < 2 ^ 255) :
    (bignum_divrem a b).1.WF ∧ (bignum_divrem a b).2.WF ∧
    (bignum_divrem a b).1.toNat = a.toNat / b.toNat ∧
    (bignum_divrem a b).2.toNat = a.toNat % b.toNat := by
  have c1 := c_bool_le (a.num_and_sign < 0)
  have w1 := WF_shl1 ha 0 (by omega)
  have w2 := WF_shl1 WF_init _ c1
  have hA := toNat_lt ha
  have hi : div_inv (2 * a.toNat) b.toNat (2 ^ 256) 1 (bignum_shl1 a 0).toNat
      (bignum_shl1 bignum_init (c_bool (a.num_and_sign < 0))).toNat := by
    refine ⟨0, a.toNat / 2 ^ 255, (2 * a.toNat) % 2 ^ 256, 0, 0, by norm_num, by omega,
      by omega, by omega, by simp, h0, by omega, ?_, ?_⟩
    · rw [toNat_shl1 ha 0 (by omega)]; omega
    · rw [toNat_shl1 WF_init _ c1, toNat_init, top_bit ha]; omega
  have key := divrem_loop_inv hb h0 h255 (2 * a.toNat) 256 1 (bignum_shl1 a 0,
      bignum_shl1 bignum_init (c_bool (a.num_and_sign < 0))) w1 w2 hi
  rw [divrem_unfold]
  exact divrem_post a b _ h0 key

theorem toNat_all_ones : (bignum_from_int (-1)).toNat = 2 ^ 256 - 1 := by decide

theorem divrem_zero_post (S : bignum × bignum) (B : Nat)
    (key : S.1.WF ∧ S.2.WF ∧ div_inv0 B 1 (1 * 2 ^ 256) S.1.toNat S.2.toNat) :
    ((fun S : bignum × bignum => (S.1, bignum_shr1 S.2 0)) S).1 = bignum_from_int (-1) := by
  obtain ⟨v1, v2, h, t, l, hPM, hB, ht, hl, hhM, hq, hrn⟩ := key
  dsimp only
  apply toNat_inj v1 (WF_from_int (-1))
  rw [hq, toNat_all_ones]
  have hl0 : l = 0 := by omega
  rw [hl0]
  omega

theorem divrem_zero_fst {a : bignum} (ha : a.WF) (hs : 0 ≤ a.num_and_sign) :
    (bignum_divrem a bignum_init).1 = bignum_from_int (-1) := by
  have c1 := c_bool_le (a.num_and_sign < 0)
  have w1 := WF_shl1 ha 0 (by omega)
  have w2 := WF_shl1 WF_init _ c1
  have hA : a.toNat < 2 ^ 255 := by
    have := top_neg_iff ha; omega
  have hi : div_inv0 (2 * a.toNat) (2 ^ 256) 1 (bignum_shl1 a 0).toNat
      (bignum_shl1 bignum_init (c_bool (a.num_and_sign < 0))).toNat := by
    refine ⟨0, 0, 2 * a.toNat, by norm_num, by omega, by omega, by omega, by omega, ?_, ?_⟩
    · rw [toNat_shl1 ha 0 (by omega)]; omega
    · rw [toNat_shl1 WF_init _ c1, toNat_init, top_bit ha]; omega
  have key := divrem_loop_inv0 WF_init toNat_init (2 * a.toNat) (by omega) 256 1
    (bignum_shl1 a 0, bignum_shl1 bignum_init (c_bool (a.num_and_sign < 0))) w1 w2 hi
  rw [divrem_unfold]
  exact divrem_zero_post _ _ key

theorem value_of_nonneg {a : bignum} (ha : a.WF) (hs : 0 ≤ a.num_and_sign) :
    a.value = a.toNat := by
  have := top_neg_iff ha
  have := toNat_lt ha
  rw [value_toNat ha]
  unfold wrap256
  omega

theorem divrem_eval {a b : bignum} (ha : a.WF) (hb : b.WF) (q r : Int)
    (hr0 : 0 ≤ r) (hrb : r < b.value) (hq0 : 0 ≤ q) (hq : q < 9223372036854775808)
    (hr : r < 9223372036854775808) (hsa : 0 ≤ a.num_and_sign)
    (e : a.value = q * b.value + r) :
    bignum_divrem a b = (bignum_from_int q, bignum_from_int r) := by
  have rb := value_range hb
  have hbs : 0 ≤ b.num_and_sign := (value_nonneg_iff hb).1 (by omega)
  have vb := value_of_nonneg hb hbs
  have va := value_of_nonneg ha hsa
  obtain ⟨w1, w2, e1, e2⟩ := divrem_spec ha hb (by omega) (by omega)
  have hdm := (Nat.div_mod_unique (show 0 < b.toNat by omega)).2
    ⟨(by
      have : ((r.toNat + b.toNat * q.toNat : Nat) : Int) = a.toNat := by
        push_cast
        rw [Int.toNat_of_nonneg hr0, Int.toNat_of_nonneg hq0, ← va, ← vb, e]; ring
      exact_mod_cast this : r.toNat + b.toNat * q.toNat = a.toNat), (by omega : r.toNat < b.toNat)⟩
  rw [hdm.1] at e1
  rw [hdm.2] at e2
  have f1 : (bignum_divrem a b).1 = bignum_from_int q := by
    apply value_inj w1 (WF_from_int q)
    rw [value_from_int q (by omega) hq, value_toNat w1, e1]
    unfold wrap256; omega
  have f2 : (bignum_divrem a b).2 = bignum_from_int r := by
    apply value_inj w2 (WF_from_int r)
    rw [value_from_int r (by omega) hr, value_toNat w2, e2]
    unfold wrap256; omega
  exact Prod.ext f1 f2

theorem divrem_value {a b : bignum} (ha : a.WF) (hb : b.WF) (hsa : 0 ≤ a.num_and_sign)
    (hvb : 0 < b.value) :
    (bignum_divrem a b).1.WF ∧ (bignum_divrem a b).2.WF ∧
    (bignum_divrem a b).1.value = a.value / b.value ∧
    (bignum_divrem a b).2.value = a.value % b.value := by
  have hbs : 0 ≤ b.num_and_sign := (value_nonneg_iff hb).1 (by omega)
  have vb := value_of_nonneg hb hbs
  have va := value_of_nonneg ha hsa
  have tb := top_neg_iff hb
  have ta := top_neg_iff ha
  have key := divrem_spec ha hb (by omega) (by omega)
  generalize bignum_divrem a b = R at key ⊢
  obtain ⟨w1, w2, e1, e2⟩ := key
  have d1 : a.toNat / b.toNat ≤ a.toNat := Nat.div_le_self _ _
  have d2 : a.toNat % b.toNat < b.toNat := Nat.mod_lt _ (by omega)
  refine ⟨w1, w2, ?_, ?_⟩
  · rw [value_toNat w1, e1, va, vb, ← Int.natCast_div]
    generalize a.toNat / b.toNat = q at *
    unfold wrap256; omega
  · rw [value_toNat w2, e2, va, vb, ← Int.natCast_mod]
    generalize a.toNat % b.toNat = r at *
    unfold wrap256; omega

theorem div_unfold (a b : bignum) : bignum_div a b =
    (fun c : bignum =>
      if (decide (a.num_and_sign < 0) != decide (b.num_and_sign < 0)) = true then bignum_neg c
      else c) (bignum_divrem (bignum_abs a) (bignum_abs b)).1 := by
  unfold bignum_div
  rfl

theorem div_of_divrem {a b x y q r : bignum} (hx : bignum_abs a = x) (hy : bignum_abs b = y)
    (h : bignum_divrem x y = (q, r)) :
    bignum_div a b =
      if (decide (a.num_and_sign < 0) != decide (b.num_and_sign < 0)) = true then bignum_neg q
      else q := by
  rw [div_unfold, hx, hy, h]

theorem div_by_zero {a : bignum} (ha : a.WF) :
    bignum_div a bignum_init =
      if a.num_and_sign < 0 then bignum_from_int 1 else bignum_from_int (-1) := by
  obtain ⟨w, n⟩ := WF_abs ha
  have hz : bignum_abs bignum_init = bignum_init := by decide
  have hn : bignum_neg (bignum_from_int (-1)) = bignum_from_int 1 := by decide
  have hs : bignum_init.num_and_sign = 0 := rfl
  rw [div_unfold, hz, divrem_zero_fst w n, hs]
  by_cases h : a.num_and_sign < 0
  · simp [h, hn]
  · simp [h]

theorem div_post {a b : bignum} (ha : a.WF) (hb : b.WF) (oka : abs_ok a) (okb : abs_ok b)
    (hb0 : b.value ≠ 0) (R : bignum × bignum)
    (key : R.1.WF ∧ R.2.WF ∧ R.1.value = (bignum_abs a).value / (bignum_abs b).value ∧
      R.2.value = (bignum_abs a).value % (bignum_abs b).value) :
    ((fun c : bignum =>
      if (decide (a.num_and_sign < 0) != decide (b.num_and_sign < 0)) = true then bignum_neg c
      else c) R.1).WF ∧
    ((fun c : bignum =>
      if (decide (a.num_and_sign < 0) != decide (b.num_and_sign < 0)) = true then bignum_neg c
      else c) R.1).value =
      a.value.sign * b.value.sign * (a.value.natAbs / b.value.natAbs : Nat) := by
  have va := value_abs ha oka
  have vb := value_abs hb okb
  have sa := value_nonneg_iff ha
  have sb := value_nonneg_iff hb
  have ra := value_range ha
  have rb := value_range hb
  obtain ⟨w1, _, e1, _⟩ := key
  have r1 := value_range w1
  have en : (bignum_neg R.1).value = -R.1.value := by
    have h0 : 0 ≤ R.1.value := by
      rw [e1]
      exact Int.ediv_nonneg (by rw [va]; split <;> omega) (by rw [vb]; split <;> omega)
    rw [value_neg w1]; unfold wrap256; omega
  have q1 : (bignum_abs a).value = (a.value.natAbs : Int) := by
    rw [va]; split <;> omega
  have q2 : (bignum_abs b).value = (b.value.natAbs : Int) := by
    rw [vb]; split <;> omega
  rw [q1, q2, ← Int.natCast_div] at e1
  dsimp only
  by_cases h1 : a.num_and_sign < 0 <;> by_cases h2 : b.num_and_sign < 0 <;>
    simp only [h1, h2, if_true, if_false, decide_True, decide_False, bne_self_eq_false,
      Bool.true_bne, Bool.false_bne, Bool.not_true, Bool.not_false, Bool.false_eq_true]
  · refine ⟨w1, ?_⟩
    rw [e1, Int.sign_eq_neg_one_of_neg (by omega), Int.sign_eq_neg_one_of_neg (by omega)]
    ring
  · refine ⟨WF_neg w1, ?_⟩
    rw [en, e1, Int.sign_eq_neg_one_of_neg (by omega), Int.sign_eq_one_of_pos (by omega)]
    ring
  · refine ⟨WF_neg w1, ?_⟩
    rw [en, e1]
    rcases lt_or_eq_of_le (show 0 ≤ a.value by omega) with h | h
    · rw [Int.sign_eq_one_of_pos h, Int.sign_eq_neg_one_of_neg (by omega)]; ring
    · rw [← h]; simp
  · refine ⟨w1, ?_⟩
    rw [e1]
    rcases lt_or_eq_of_le (show 0 ≤ a.value by omega) with h | h
    · rw [Int.sign_eq_one_of_pos h, Int.sign_eq_one_of_pos (by omega)]; ring
    · rw [← h]; simp

theorem div_spec {a b : bignum} (ha : a.WF) (hb : b.WF) (oka : abs_ok a) (okb : abs_ok b)
    (hb0 : b.value ≠ 0) :
    (bignum_div a b).WF ∧
    (bignum_div a b).value =
      a.value.sign * b.value.sign * (a.value.natAbs / b.value.natAbs : Nat) := by
  obtain ⟨wa, na⟩ := WF_abs ha
  obtain ⟨wb, nb⟩ := WF_abs hb
  have vb := value_abs hb okb
  have sb := value_nonneg_iff hb
  have pb : 0 < (bignum_abs b).value := by
    rw [vb]; split <;> omega
  have key := divrem_value wa wb na pb
  rw [div_unfold]
  exact div_post ha hb oka okb hb0 _ key

/-! ## Decimal rendering -/

theorem to_dec_loop_break {base quo q r : bignum} (fuel : Nat) (i : Int) (w : writes)
    (hi : i ≥ 0) (h : bignum_divrem quo base = (q, r)) (hz : bignum_is_zero q ≠ 0) :
    to_dec_loop base (fuel + 1) (i, quo, w) = (i, q, store w i (snprintf_09u (r.word 0))) := by
  rw [to_dec_loop, if_pos hi, h]
  dsimp only
  rw [if_pos hz]

theorem to_dec_loop_next {base quo q r : bignum} (fuel : Nat) (i : Int) (w : writes)
    (hi : i ≥ 0) (h : bignum_divrem quo base = (q, r)) (hz : bignum_is_zero q = 0) :
    to_dec_loop base (fuel + 1) (i, quo, w) =
      to_dec_loop base fuel (to_i32 (i - 9), q, store w i (snprintf_09u (r.word 0))) := by
  rw [to_dec_loop, if_pos hi, h]
  dsimp only
  rw [if_neg (by rw [hz]; decide)]

theorem to_dec_loop_exit {base quo : bignum} (fuel : Nat) (i : Int) (w : writes)
    (hi : i < 0) : to_dec_loop base fuel (i, quo, w) = (i, quo, w) := by
  cases fuel with
  | zero => rfl
  | succ n => rw [to_dec_loop, if_neg (by omega)]

theorem to_dec_unfold (a : bignum) (init : Int → Nat) (size : Nat) (h10 : 10 ≤ size)
    (s : Int × bignum × writes)
    (hs : to_dec_loop (bignum_from_int 1000000000) size
      (to_i32 ((size : Int) - 1 - 9), bignum_abs a, [((size : Int) - 1, 0)]) = s) :
    bignum_to_dec a init size =
      if s.1 ≥ 0 then
        memmove init
          (if a.num_and_sign < 0 then
            (to_i32 (skip_zeros init s.2.2 size size s.1 - 1),
              (to_i32 (skip_zeros init s.2.2 size size s.1 - 1), 45) :: s.2.2)
          else (skip_zeros init s.2.2 size size s.1, s.2.2)).2 0
          (if a.num_and_sign < 0 then
            (to_i32 (skip_zeros init s.2.2 size size s.1 - 1),
              (to_i32 (skip_zeros init s.2.2 size size s.1 - 1), 45) :: s.2.2)
          else (skip_zeros init s.2.2 size size s.1, s.2.2)).1
          (to_u64 ((size : Int) -
            (if a.num_and_sign < 0 then
              (to_i32 (skip_zeros init s.2.2 size size s.1 - 1),
                (to_i32 (skip_zeros init s.2.2 size size s.1 - 1), 45) :: s.2.2)
            else (skip_zeros init s.2.2 size size s.1, s.2.2)).1))
      else if to_i32 (s.1 + 9) > 0 then store s.2.2 0 (List.replicate (to_i32 (s.1 + 9)).toNat 46)
      else store s.2.2 0 (List.replicate 9 46) := by
  unfold bignum_to_dec
  rw [if_neg (by omega), if_neg (by omega)]
  dsimp only
  rw [hs]

theorem abs_neg_two_pow_32 : bignum_abs (bignum_from_int (-4294967296)) = bignum_from_int 0 := by
  decide

theorem divrem_zero_by_base :
    bignum_divrem (bignum_from_int 0) (bignum_from_int 1000000000) =
      (bignum_from_int 0, bignum_from_int 0) :=
  divrem_eval (WF_from_int _) (WF_from_int _) 0 0 (by decide) (by decide) (by decide) (by decide)
    (by decide) (by decide) (by decide)

theorem divrem_123_by_base :
    bignum_divrem (bignum_from_int 123) (bignum_from_int 1000000000) =
      (bignum_from_int 0, bignum_from_int 123) :=
  divrem_eval (WF_from_int _) (WF_from_int _) 0 123 (by decide) (by decide) (by decide)
    (by decide) (by decide) (by decide) (by decide)

theorem divrem_123456789_by_base :
    bignum_divrem (bignum_from_int 123456789) (bignum_from_int 1000000000) =
      (bignum_from_int 0, bignum_from_int 123456789) :=
  divrem_eval (WF_from_int _) (WF_from_int _) 0 123456789 (by decide) (by decide) (by decide)
    (by decide) (by decide) (by decide) (by decide)

theorem divrem_zero_by_one :
    bignum_divrem (bignum_from_int 0) (bignum_from_int 1) =
      (bignum_from_int 0, bignum_from_int 0) :=
  divrem_eval (WF_from_int _) (WF_from_int _) 0 0 (by decide) (by decide) (by decide) (by decide)
    (by decide) (by decide) (by decide)

theorem divrem_35_by_7 :
    bignum_divrem (bignum_from_int 35) (bignum_from_int 7) =
      (bignum_from_int 5, bignum_from_int 0) :=
  divrem_eval (WF_from_int _) (WF_from_int _) 5 0 (by decide) (by decide) (by decide) (by decide)
    (by decide) (by decide) (by decide)

theorem abs_neg_123 : bignum_abs (bignum_from_int (-123)) = bignum_from_int 123 := by
  decide

theorem abs_neg_123456789 :
    bignum_abs (bignum_from_int (-123456789)) = bignum_from_int 123456789 := by
  decide

theorem abs_zero : bignum_abs (bignum_from_int 0) = bignum_from_int 0 := by
  decide

/-! ## Fibonacci numbers modulo powers of two -/

theorem fib_mod8 (n : Nat) :
    (Nat.fib n % 8 = 0 ∧ Nat.fib (n + 1) % 8 = 1) ∨ (Nat.fib n % 8 = 1 ∧ Nat.fib (n + 1) % 8 = 1) ∨
    (Nat.fib n % 8 = 1 ∧ Nat.fib (n + 1) % 8 = 2) ∨ (Nat.fib n % 8 = 2 ∧ Nat.fib (n + 1) % 8 = 3) ∨
    (Nat.fib n % 8 = 3 ∧ Nat.fib (n + 1) % 8 = 5) ∨ (Nat.fib n % 8 = 5 ∧ Nat.fib (n + 1) % 8 = 0) ∨
    (Nat.fib n % 8 = 0 ∧ Nat.fib (n + 1) % 8 = 5) ∨ (Nat.fib n % 8 = 5 ∧ Nat.fib (n + 1) % 8 = 5) ∨
    (Nat.fib n % 8 = 5 ∧ Nat.fib (n + 1) % 8 = 2) ∨ (Nat.fib n % 8 = 2 ∧ Nat.fib (n + 1) % 8 = 7) ∨
    (Nat.fib n % 8 = 7 ∧ Nat.fib (n + 1) % 8 = 1) ∨ (Nat.fib n % 8 = 1 ∧ Nat.fib (n + 1) % 8 = 0) := by
  induction n with
  | zero => left; exact ⟨rfl, rfl⟩
  | succ n ih =>
    have e : Nat.fib (n + 1 + 1) = Nat.fib n + Nat.fib (n + 1) := Nat.fib_add_two
    generalize Nat.fib (n + 1 + 1) = z at e ⊢
    generalize Nat.fib (n + 1) = y at e ih ⊢
    generalize Nat.fib n = x at e ih
    have hz : z % 8 = (x % 8 + y % 8) % 8 := by omega
    rcases ih with h | h | h | h | h | h | h | h | h | h | h | h <;>
      obtain ⟨h1, h2⟩ := h <;> rw [h1, h2] at hz <;> simp only [h2, hz] <;> decide

theorem lucas_mod8 (n : Nat) : (2 * (Nat.fib (n + 1) : Int) - Nat.fib n) % 8 ≠ 0 := by
  have := fib_mod8 n
  generalize Nat.fib (n + 1) = y at this ⊢
  generalize Nat.fib n = x at this ⊢
  omega

theorem dbl_mod_spec (M n : Nat) (hM : 0 < M) :
    dbl_mod M (Nat.fib n % M, Nat.fib (n + 1) % M) =
      (Nat.fib (2 * n) % M, Nat.fib (2 * n + 1) % M) := by
  have h : Nat.fib n ≤ 2 * Nat.fib (n + 1) := by
    have := @Nat.fib_le_fib_succ n; omega
  have hx : Nat.fib n % M < M := Nat.mod_lt _ hM
  have mx : ((Nat.fib n % M : Nat) : Int) ≡ Nat.fib n [ZMOD M] :=
    Int.natCast_modEq_iff.2 (Nat.mod_modEq _ _)
  have my : ((Nat.fib (n + 1) % M : Nat) : Int) ≡ Nat.fib (n + 1) [ZMOD M] :=
    Int.natCast_modEq_iff.2 (Nat.mod_modEq _ _)
  have mM : (M : Int) ≡ 0 [ZMOD M] := by
    unfold Int.ModEq; simp
  unfold dbl_mod
  dsimp only
  refine Prod.ext ?_ ?_
  · dsimp only
    rw [Nat.fib_two_mul]
    apply Int.natCast_modEq_iff.1
    rw [Nat.cast_mul, Nat.cast_mul, Nat.cast_sub h, Nat.cast_sub (by omega)]
    push_cast
    have := Int.ModEq.mul mx (Int.ModEq.sub (Int.ModEq.add (Int.ModEq.mul_left 2 my) mM) mx)
    rw [Int.add_zero] at this
    exact this
  · dsimp only
    rw [Nat.fib_two_mul_add_one]
    apply Int.natCast_modEq_iff.1
    have := Int.ModEq.add (Int.ModEq.mul my my) (Int.ModEq.mul mx mx)
    simpa [pow_two] using this

theorem dbl_mod_iter (M c : Nat) (hM : 0 < M) : ∀ j : Nat,
    (dbl_mod M)^[j] (Nat.fib c % M, Nat.fib (c + 1) % M) =
      (Nat.fib (c * 2 ^ j) % M, Nat.fib (c * 2 ^ j + 1) % M)
  | 0 => by simp
  | j + 1 => by
    rw [Function.iterate_succ_apply', dbl_mod_iter M c hM j, dbl_mod_spec M _ hM]
    have e : 2 * (c * 2 ^ j) = c * 2 ^ (j + 1) := by rw [Nat.pow_succ]; ring
    rw [e]

theorem dbl_mod_30 : (dbl_mod 4294967296)^[30] (2, 3) = (0, 2147483649) := by decide

theorem dbl_mod_29 : (dbl_mod 4294967296)^[29] (2, 3) = (2147483648, 1073741825) := by decide

theorem dbl_mod_one_30 : ((dbl_mod 2)^[30] (1, 1)).1 = 1 := by decide

theorem dvd_three_two_pow (d : Nat) (hd : d ∣ 3 * 2 ^ 30) (hlt : d < 3 * 2 ^ 30) :
    d ∣ 3 * 2 ^ 29 ∨ d ∣ 2 ^ 30 := by
  by_cases h3 : 3 ∣ d
  · obtain ⟨e, rfl⟩ := h3
    have he : e ∣ 2 ^ 30 := Nat.dvd_of_mul_dvd_mul_left (by decide) hd
    obtain ⟨j, hj, rfl⟩ := (Nat.dvd_prime_pow Nat.prime_two).1 he
    have hj2 : j ≤ 29 := by
      by_contra hc
      have : j = 30 := by omega
      subst this
      omega
    exact Or.inl (Nat.mul_dvd_mul_left 3 (Nat.pow_dvd_pow 2 hj2))
  · have hc : Nat.Coprime d 3 :=
      ((Nat.Prime.coprime_iff_not_dvd Nat.prime_three).2 h3).symm
    exact Or.inr (hc.dvd_of_dvd_mul_left (by rw [Nat.mul_comm]; exact hd))

theorem dbl_mod_fst (M c x y : Nat) (hM : 0 < M) (hx : Nat.fib c % M = x)
    (hy : Nat.fib (c + 1) % M = y) (j : Nat) :
    Nat.fib (c * 2 ^ j) % M = ((dbl_mod M)^[j] (x, y)).1 := by
  subst hx hy
  rw [dbl_mod_iter M c hM j]

theorem fib_three_two_pow_30 : Nat.fib (3 * 2 ^ 30) % 4294967296 = 0 := by
  have h := dbl_mod_fst 4294967296 3 2 3 (by decide) rfl rfl 30
  rw [dbl_mod_30] at h
  exact h

theorem fib_three_two_pow_29 : Nat.fib (3 * 2 ^ 29) % 4294967296 = 2147483648 := by
  have h := dbl_mod_fst 4294967296 3 2 3 (by decide) rfl rfl 29
  rw [dbl_mod_29] at h
  exact h

theorem fib_two_pow_30 : Nat.fib (1 * 2 ^ 30) % 2 = 1 := by
  have h := dbl_mod_fst 2 1 1 1 (by decide) rfl rfl 30
  rw [dbl_mod_one_30] at h
  exact h

theorem gcd_three_two_pow (m : Nat) (h1 : 1 ≤ m) (h2 : m < 3 * 2 ^ 30) :
    Nat.gcd m (3 * 2 ^ 30) ∣ 3 * 2 ^ 29 ∨ Nat.gcd m (3 * 2 ^ 30) ∣ 1 * 2 ^ 30 := by
  have hd1 : Nat.gcd m (3 * 2 ^ 30) ∣ 3 * 2 ^ 30 := Nat.gcd_dvd_right _ _
  have hd2 : Nat.gcd m (3 * 2 ^ 30) ≤ m := Nat.le_of_dvd (by omega) (Nat.gcd_dvd_left _ _)
  rw [Nat.one_mul]
  exact dvd_three_two_pow _ hd1 (lt_of_le_of_lt hd2 h2)

theorem fib_mod_ne_zero (m : Nat) (h1 : 1 ≤ m) (h2 : m < 3 * 2 ^ 30) :
    Nat.fib m % 4294967296 ≠ 0 := by
  intro h
  have hm : 4294967296 ∣ Nat.fib m := Nat.dvd_of_mod_eq_zero h
  have hN : 4294967296 ∣ Nat.fib (3 * 2 ^ 30) := Nat.dvd_of_mod_eq_zero fib_three_two_pow_30
  have hg : 4294967296 ∣ Nat.fib (Nat.gcd m (3 * 2 ^ 30)) := by
    rw [Nat.fib_gcd]; exact Nat.dvd_gcd hm hN
  rcases gcd_three_two_pow m h1 h2 with hc | hc
  · have := Nat.mod_eq_zero_of_dvd (Nat.dvd_trans hg (Nat.fib_dvd _ _ hc))
    rw [fib_three_two_pow_29] at this
    exact absurd this (by decide)
  · have h2' : 2 ∣ Nat.fib (1 * 2 ^ 30) :=
      Nat.dvd_trans (by decide : 2 ∣ 4294967296) (Nat.dvd_trans hg (Nat.fib_dvd _ _ hc))
    have := Nat.mod_eq_zero_of_dvd h2'
    rw [fib_two_pow_30] at this
    exact absurd this (by decide)

/-! ## The fast variant beyond the overflow boundary -/

theorem wrap256_range (x : Int) : -(2 : Int) ^ 255 ≤ wrap256 x ∧ wrap256 x < 2 ^ 255 := by
  unfold wrap256; omega

theorem abs_ok_of_modEq {a : bignum} (ha : a.WF) (x : Int) (h : a.value ≡ x [ZMOD 2 ^ 256])
    (hx : x % 4294967296 ≠ 0) : abs_ok a := by
  obtain ⟨a0, a1, a2, a3, a4, a5, a6, s, rfl, b0, b1, b2, b3, b4, b5, b6, s1, s2⟩ := WF_cases ha
  refine Or.inr ?_
  simp only [bignum.word, List.getD_cons_zero]
  simp only [bignum.value, limbs] at h
  unfold Int.ModEq at h
  omega

theorem abs_ok_fib {a : bignum} (ha : a.WF) (n : Nat) (hn : n < 3 * 2 ^ 30)
    (h : a.value ≡ Nat.fib n [ZMOD 2 ^ 256]) : abs_ok a := by
  rcases Nat.eq_zero_or_pos n with h0 | h0
  · subst h0
    have r := value_range ha
    have e : a.value = 0 := by
      rw [Nat.fib_zero] at h
      exact modEq_range h r.1 r.2 (by norm_num) (by norm_num)
    exact abs_ok_of_nonneg ha (by omega)
  · have hne := fib_mod_ne_zero n h0 hn
    apply abs_ok_of_modEq ha _ h
    intro hc
    apply hne
    have : ((Nat.fib n % 4294967296 : Nat) : Int) = 0 := by
      rw [Int.natCast_mod]; exact hc
    exact_mod_cast this

theorem abs_ok_lucas {t : bignum} (ht : t.WF) (n : Nat)
    (h : t.value ≡ 2 * (Nat.fib (n + 1) : Int) - Nat.fib n [ZMOD 2 ^ 256]) : abs_ok t := by
  apply abs_ok_of_modEq ht _ h
  have := lucas_mod8 n
  omega

theorem fast_step_modEq {a b : bignum} (ha : a.WF) (hb : b.WF) (n : Nat)
    (hn : n + 1 < 3 * 2 ^ 30)
    (va : a.value ≡ Nat.fib n [ZMOD 2 ^ 256]) (vb : b.value ≡ Nat.fib (n + 1) [ZMOD 2 ^ 256])
    (bit : Bool) :
    (fib_fast_step a b bit).1.WF ∧ (fib_fast_step a b bit).2.WF ∧
    (fib_fast_step a b bit).1.value ≡ Nat.fib (2 * n + bit.toNat) [ZMOD 2 ^ 256] ∧
    (fib_fast_step a b bit).2.value ≡ Nat.fib (2 * n + bit.toNat + 1) [ZMOD 2 ^ 256] := by
  have w1 := WF_shl1 hb 0 (by omega)
  have v1 : (bignum_shl1 b 0).value ≡ 2 * (Nat.fib (n + 1) : Int) [ZMOD 2 ^ 256] := by
    rw [value_shl1 hb 0 (by omega)]
    refine (wrap256_modEq _).trans ?_
    rw [Nat.cast_zero, Int.add_zero]
    exact Int.ModEq.mul_left 2 vb
  have w2 := WF_sub w1 ha
  have v2 : (bignum_sub (bignum_shl1 b 0) a).value ≡
      2 * (Nat.fib (n + 1) : Int) - Nat.fib n [ZMOD 2 ^ 256] := by
    rw [value_sub w1 ha]
    exact (wrap256_modEq _).trans (Int.ModEq.sub v1 va)
  have oka := abs_ok_fib ha n (by omega) va
  have okb := abs_ok_fib hb (n + 1) hn vb
  obtain ⟨w3, v3⟩ := mul_spec w2 ha (abs_ok_lucas w2 n v2) oka
  have v3' : (bignum_mul (bignum_sub (bignum_shl1 b 0) a) a).value ≡
      Nat.fib (2 * n) [ZMOD 2 ^ 256] := by
    rw [fib_cast_two_mul]
    exact v3.trans (Int.ModEq.mul v2 va)
  obtain ⟨w4, v4⟩ := mul_spec hb hb okb okb
  obtain ⟨w5, v5⟩ := mul_spec ha ha oka oka
  have w6 := WF_add w5 w4
  have v6 : (bignum_add (bignum_mul a a) (bignum_mul b b)).value ≡
      Nat.fib (2 * n + 1) [ZMOD 2 ^ 256] := by
    rw [value_add w5 w4, fib_cast_two_mul_add_one]
    exact (wrap256_modEq _).trans
      (Int.ModEq.add (v5.trans (Int.ModEq.mul va va)) (v4.trans (Int.ModEq.mul vb vb)))
  have w7 := WF_add w3 w6
  have v7 : (bignum_add (bignum_mul (bignum_sub (bignum_shl1 b 0) a) a)
      (bignum_add (bignum_mul a a) (bignum_mul b b))).value ≡
      Nat.fib (2 * n + 1 + 1) [ZMOD 2 ^ 256] := by
    have e : Nat.fib (2 * n + 1 + 1) = Nat.fib (2 * n) + Nat.fib (2 * n + 1) := Nat.fib_add_two
    rw [value_add w3 w6, e, Nat.cast_add]
    exact (wrap256_modEq _).trans (Int.ModEq.add v3' v6)
  cases bit
  · simp only [fib_fast_step, Bool.toNat_false, Nat.add_zero, Bool.false_eq_true, if_false]
    exact ⟨w3, w6, v3', v6⟩
  · simp only [fib_fast_step, Bool.toNat_true, if_true]
    exact ⟨w6, w7, v6, v7⟩

theorem div_two_pow_lt {k : Nat} (hk : k < 2 ^ 31) (p : Nat) :
    k / 2 ^ (p + 1) + 1 < 3 * 2 ^ 30 := by
  have h : k / 2 ^ (p + 1) ≤ k / 2 := by
    apply Nat.div_le_div_left _ (by decide)
    calc 2 = 2 ^ 1 := rfl
      _ ≤ 2 ^ (p + 1) := Nat.pow_le_pow_right (by decide) (by omega)
  omega

theorem fast_loop_modEq (k : Nat) (hk : k < 2 ^ 31) : ∀ (p fuel : Nat) (a b : bignum),
    p < fuel → a.WF → b.WF → a.value ≡ Nat.fib (k / 2 ^ (p + 1)) [ZMOD 2 ^ 256] →
    b.value ≡ Nat.fib (k / 2 ^ (p + 1) + 1) [ZMOD 2 ^ 256] →
    (fib_fast_loop k fuel (2 ^ p) (a, b)).1.WF ∧
    (fib_fast_loop k fuel (2 ^ p) (a, b)).1.value ≡ Nat.fib k [ZMOD 2 ^ 256]
  | p, 0, _, _, h, _, _, _, _ => by omega
  | 0, fuel + 1, a, b, _, ha, hb, va, vb => by
    obtain ⟨w1, _, v1, _⟩ :=
      fast_step_modEq ha hb _ (div_two_pow_lt hk 0) va vb (decide (k &&& 2 ^ 0 ≠ 0))
    rw [bit_div, Nat.pow_zero, Nat.div_one] at v1
    have e : fib_fast_loop k (fuel + 1) (2 ^ 0) (a, b) =
        fib_fast_step a b (decide (k &&& 2 ^ 0 ≠ 0)) := by
      rw [fib_fast_loop, if_pos (by decide)]
      exact fast_loop_zero _ _ _
    rw [e]
    exact ⟨w1, v1⟩
  | p + 1, fuel + 1, a, b, h, ha, hb, va, vb => by
    have hp : 0 < 2 ^ (p + 1) := Nat.two_pow_pos _
    obtain ⟨w1, w2, v1, v2⟩ :=
      fast_step_modEq ha hb _ (div_two_pow_lt hk (p + 1)) va vb (decide (k &&& 2 ^ (p + 1) ≠ 0))
    rw [bit_div] at v1 v2
    have e : fib_fast_loop k (fuel + 1) (2 ^ (p + 1)) (a, b) =
        fib_fast_loop k fuel (2 ^ p)
          ((fib_fast_step a b (decide (k &&& 2 ^ (p + 1) ≠ 0))).1,
           (fib_fast_step a b (decide (k &&& 2 ^ (p + 1) ≠ 0))).2) := by
      rw [fib_fast_loop, if_pos hp]
      have : 2 ^ (p + 1) >>> 1 = 2 ^ p := by
        rw [Nat.shiftRight_eq_div_pow, Nat.pow_succ]; omega
      rw [this]
    rw [e]
    exact fast_loop_modEq k hk p fuel _ _ (by omega) w1 w2 v1 v2

theorem fast_modEq (k : Int) (h0 : 2 ≤ k) (hk : k < 2 ^ 31) :
    (fib_bignum_fast k).WF ∧ (fib_bignum_fast k).value ≡ Nat.fib k.toNat [ZMOD 2 ^ 256] := by
  unfold fib_bignum_fast
  rw [if_neg (by omega)]
  have e : to_u64 k = k.toNat := by unfold to_u64; omega
  have hk2 : k.toNat < 2 ^ 31 := by omega
  obtain ⟨p, hm, p1, p2⟩ := fast_mask k.toNat (by omega)
    (lt_of_lt_of_le hk2 (by norm_num))
  dsimp only
  rw [e, hm]
  have hp : p < 32 := by
    by_contra hc
    have : 2 ^ 32 ≤ 2 ^ p := Nat.pow_le_pow_right (by decide) (by omega)
    omega
  have hz : k.toNat / 2 ^ (p + 1) = 0 := Nat.div_eq_of_lt p2
  apply fast_loop_modEq k.toNat hk2 p 32 _ _ hp (WF_from_int 0) (WF_from_int 1)
  · rw [hz, value_from_int 0 (by decide) (by decide)]; rfl
  · rw [hz, value_from_int 1 (by decide) (by decide)]; rfl

theorem orig_modEq (k : Int) (h0 : 2 ≤ k) (result : bignum) :
    (fib_bignum_orig k result).WF ∧
      (fib_bignum_orig k result).value ≡ Nat.fib k.toNat [ZMOD 2 ^ 256] := by
  unfold fib_bignum_orig
  rw [if_neg (by omega)]
  obtain ⟨m, hm⟩ : ∃ m : Nat, k = (m : Int) + 1 ∧ 0 < m ∧ m + 1 = k.toNat :=
    ⟨k.toNat - 1, by omega, by omega, by omega⟩
  obtain ⟨i1, i2, i3⟩ := orig_loop_spec k.toNat m 0 (bignum_from_int 0) (bignum_from_int 1)
    result (by omega) (WF_from_int 0) (WF_from_int 1)
    (by rw [value_from_int 0 (by decide) (by decide)]; rfl)
    (by rw [value_from_int 1 (by decide) (by decide)]; rfl)
  have e := i3 (Or.inl hm.2.1)
  rw [← hm.1] at i1 i2 e
  rw [e]
  refine ⟨i1, ?_⟩
  rw [Nat.zero_add, hm.2.2] at i2
  exact i2

theorem toNat_of_modEq {a : bignum} (ha : a.WF) (n : Nat) (h : a.value ≡ n [ZMOD 2 ^ 256]) :
    a.toNat = n % 2 ^ 256 := by
  have e := toNat_value ha
  unfold Int.ModEq at h
  omega

/-! ## Main results -/

theorem WF_min : bignum_min.WF := by decide

theorem value_min : bignum_min.value = -(2 : Int) ^ 255 := by decide

theorem value_ne_min {a : bignum} (ha : a.WF) (h : a ≠ bignum_min) :
    a.value ≠ -(2 : Int) ^ 255 := by
  intro e
  exact h (value_inj ha WF_min (e.trans value_min.symm))

/-- C1: for every index `k` with `0 ≤ k ≤ 368`, `fib_bignum_fast k` is a
well-formed bignum whose two's-complement value is exactly the Fibonacci number
`F k`, without any wraparound. -/
theorem C1_fib_bignum_fast_value (k : Int) (h0 : 0 ≤ k) (hk : k ≤ 368) :
    (fib_bignum_fast k).WF ∧ (fib_bignum_fast k).value = (F k.toNat : Int) := by
  rw [F_eq_fib]
  exact fast_spec k h0 hk

/-- C1 at `k = 20`: the value is `6765`. -/
theorem C1_fib_bignum_fast_value_witness :
    (0 : Int) ≤ 20 ∧ (20 : Int) ≤ 368 ∧ (fib_bignum_fast 20).value = 6765 :=
  ⟨by decide, by decide,
    (C1_fib_bignum_fast_value 20 (by decide) (by decide)).2.trans (by decide)⟩

/-- C2: for every index `k` with `0 ≤ k ≤ 368`, `fib_bignum_fast k` and
`fib_bignum_orig k` write the same bignum, word for word, whatever the output
buffer of the naive variant held before. -/
theorem C2_fast_eq_orig (k : Int) (h0 : 0 ≤ k) (hk : k ≤ 368) (result : bignum) :
    fib_bignum_fast k = fib_bignum_orig k result := by
  obtain ⟨w1, v1⟩ := fast_spec k h0 hk
  obtain ⟨w2, v2⟩ := orig_spec k h0 hk result
  exact value_inj w1 w2 (v1.trans v2.symm)

/-- C2 at `k = 368`, the last index the naive variant computes without
overflow. -/
theorem C2_fast_eq_orig_witness :
    (0 : Int) ≤ 368 ∧ (368 : Int) ≤ 368 ∧
      fib_bignum_fast 368 = fib_bignum_orig 368 bignum_init :=
  ⟨by decide, by decide, C2_fast_eq_orig 368 (by decide) (by decide) bignum_init⟩

/-- C3: for all well-formed bignums `a` and `b`, `bignum_add a b` is
well formed and its two's-complement value is `value a + value b` reduced into
`[-2^255, 2^255)` modulo `2^256`. -/
theorem C3_bignum_add_wraps (a b : bignum) (ha : a.WF) (hb : b.WF) :
    (bignum_add a b).WF ∧ (bignum_add a b).value = wrap256 (a.value + b.value) :=
  ⟨WF_add ha hb, value_add ha hb⟩

/-- C3 at the largest value plus one, where the sum wraps to the minimum. -/
theorem C3_bignum_add_wraps_witness :
    (bignum.mk [4294967295, 4294967295, 4294967295, 4294967295, 4294967295, 4294967295,
      4294967295] 2147483647).WF ∧ (bignum_from_int 1).WF ∧
    (bignum_add (bignum.mk [4294967295, 4294967295, 4294967295, 4294967295, 4294967295,
      4294967295, 4294967295] 2147483647) (bignum_from_int 1)).value =
      wrap256 ((bignum.mk [4294967295, 4294967295, 4294967295, 4294967295, 4294967295,
        4294967295, 4294967295] 2147483647).value + (bignum_from_int 1).value) :=
  ⟨by decide, by decide, (C3_bignum_add_wraps _ _ (by decide) (by decide)).2⟩

/-- C4: for every signed 64-bit integer `i`, `bignum_from_int i` has value
`i`; words 0 and 1 hold the low 64 bits of `i`, and the words 2 to 6 and the
top word are all zero when `i ≥ 0` and all ones when `i < 0`. -/
theorem C4_bignum_from_int (i : Int) (h1 : -9223372036854775808 ≤ i)
    (h2 : i < 9223372036854775808) :
    (bignum_from_int i).value = i ∧
    (bignum_from_int i).num =
      [(i % 18446744073709551616).toNat % 4294967296,
       (i % 18446744073709551616).toNat / 4294967296] ++
        List.replicate 5 (if i < 0 then 4294967295 else 0) ∧
    (bignum_from_int i).num_and_sign = (if i < 0 then -1 else 0) := by
  refine ⟨value_from_int i h1 h2, ?_, ?_⟩
  · simp only [bignum_from_int, range'_from_int, List.map, land_UINT32_MAX, List.replicate,
      List.cons_append, List.nil_append]
    have e1 : to_u64 i % 4294967296 = (i % 18446744073709551616).toNat % 4294967296 := rfl
    have e2 : to_u32 (i / 4294967296) = (i % 18446744073709551616).toNat / 4294967296 := by
      unfold to_u32; omega
    have e3 : to_u32 (-(c_bool (i < 0) : Int)) = if i < 0 then 4294967295 else 0 := by
      unfold to_u32 c_bool; split <;> simp
    rw [e1, e2, e3]
  · simp only [bignum_from_int]
    unfold to_i32 c_bool
    split <;> simp

/-- C4 at `i = -123`. -/
theorem C4_bignum_from_int_witness :
    (-9223372036854775808 : Int) ≤ -123 ∧ (-123 : Int) < 9223372036854775808 ∧
    ((bignum_from_int (-123)).value = -123 ∧
    (bignum_from_int (-123)).num =
      [((-123 : Int) % 18446744073709551616).toNat % 4294967296,
       ((-123 : Int) % 18446744073709551616).toNat / 4294967296] ++
        List.replicate 5 (if (-123 : Int) < 0 then 4294967295 else 0) ∧
    (bignum_from_int (-123)).num_and_sign = (if (-123 : Int) < 0 then -1 else 0)) :=
  ⟨by decide, by decide, C4_bignum_from_int (-123) (by decide) (by decide)⟩

/-- C5: for all well-formed bignums `a` and `b`, `bignum_sub a b` equals
`bignum_add a (bignum_neg b)` word for word. -/
theorem C5_sub_eq_add_neg (a b : bignum) (ha : a.WF) (hb : b.WF) :
    bignum_sub a b = bignum_add a (bignum_neg b) := by
  have wn := WF_neg hb
  apply value_inj (WF_sub ha hb) (WF_add ha wn)
  rw [value_sub ha hb, value_add ha wn, value_neg hb]
  unfold wrap256
  omega

/-- C5 with the minimum value as subtrahend. -/
theorem C5_sub_eq_add_neg_witness :
    (bignum_from_int 5).WF ∧ bignum_min.WF ∧
      bignum_sub (bignum_from_int 5) bignum_min =
        bignum_add (bignum_from_int 5) (bignum_neg bignum_min) :=
  ⟨by decide, by decide, C5_sub_eq_add_neg _ _ (by decide) (by decide)⟩

/-- C6: for every well-formed bignum `a` other than the minimum value,
`bignum_add a (bignum_neg a)` is the all-words-zero bignum. -/
theorem C6_add_neg_self (a : bignum) (ha : a.WF) (_hm : a ≠ bignum_min) :
    bignum_add a (bignum_neg a) = bignum_init := by
  have wn := WF_neg ha
  apply value_inj (WF_add ha wn) WF_init
  rw [value_add ha wn, value_neg ha, value_init]
  have := value_range ha
  unfold wrap256
  omega

/-- C6 at `a = -35`. -/
theorem C6_add_neg_self_witness :
    (bignum_from_int (-35)).WF ∧ bignum_from_int (-35) ≠ bignum_min ∧
      bignum_add (bignum_from_int (-35)) (bignum_neg (bignum_from_int (-35))) = bignum_init :=
  ⟨by decide, by decide, C6_add_neg_self _ (by decide) (by decide)⟩

/-- C7: `bignum_neg` is two's-complement negation: for every well-formed
bignum `a` other than the minimum, the value of `bignum_neg a` is the opposite
of the value of `a` and negating twice gives `a` back; the minimum value is its
own negation. -/
theorem C7_bignum_neg (a : bignum) (ha : a.WF) (hm : a ≠ bignum_min) :
    ((bignum_neg a).value = -a.value ∧ bignum_neg (bignum_neg a) = a) ∧
    bignum_neg bignum_min = bignum_min := by
  refine ⟨?_, by decide⟩
  have hv := value_ne_min ha hm
  have r := value_range ha
  have wn := WF_neg ha
  have v1 : (bignum_neg a).value = -a.value := by
    rw [value_neg ha]; unfold wrap256; omega
  refine ⟨v1, ?_⟩
  apply value_inj (WF_neg wn) ha
  rw [value_neg wn, v1]
  unfold wrap256; omega

/-- C7 at `a = 7`. -/
theorem C7_bignum_neg_witness :
    (bignum_from_int 7).WF ∧ bignum_from_int 7 ≠ bignum_min ∧
    (((bignum_neg (bignum_from_int 7)).value = -(bignum_from_int 7).value ∧
        bignum_neg (bignum_neg (bignum_from_int 7)) = bignum_from_int 7) ∧
      bignum_neg bignum_min = bignum_min) :=
  ⟨by decide, by decide, C7_bignum_neg _ (by decide) (by decide)⟩

/-- C8, evaluated at `a = -2^32`: the top word of `a` is negative and its lowest
word is zero; `bignum_abs a` is the all-words-zero bignum, whereas
`bignum_neg a` is `2^32`. The carry out of word 0 is lost in `bignum_abs`. -/
theorem C8_bignum_abs_drops_carry :
    (bignum_from_int (-4294967296)).WF ∧
    (bignum_from_int (-4294967296)).num_and_sign < 0 ∧
    bignum_abs (bignum_from_int (-4294967296)) = bignum_init ∧
    bignum_neg (bignum_from_int (-4294967296)) = bignum_from_int 4294967296 ∧
    bignum_abs (bignum_from_int (-4294967296)) ≠ bignum_neg (bignum_from_int (-4294967296)) := by
  decide

/-- C9: for every well-formed bignum `a`, the minimum value included,
`bignum_abs (bignum_abs a) = bignum_abs a`. -/
theorem C9_abs_idempotent (a : bignum) (ha : a.WF) :
    bignum_abs (bignum_abs a) = bignum_abs a := by
  obtain ⟨w, n⟩ := WF_abs ha
  exact abs_of_nonneg w n

/-- C9 at the minimum value. -/
theorem C9_abs_idempotent_witness :
    bignum_min.WF ∧ bignum_abs (bignum_abs bignum_min) = bignum_abs bignum_min :=
  ⟨by decide, C9_abs_idempotent _ (by decide)⟩

/-- C10, evaluated at `a = -2^32`, `b = 1`: `bignum_mul a b` is the
all-words-zero bignum, whose value `0` is not congruent to
`value a * value b = -2^32` modulo `2^256`; the magnitude of `a` computed by
`bignum_abs` is already `0`. The product `(-5) * 7` is `-35` as expected. -/
theorem C10_bignum_mul_loses_product :
    (bignum_from_int (-4294967296)).WF ∧ (bignum_from_int 1).WF ∧
    (bignum_from_int (-4294967296)).value = -4294967296 ∧
    (bignum_from_int 1).value = 1 ∧
    bignum_mul (bignum_from_int (-4294967296)) (bignum_from_int 1) = bignum_init ∧
    ¬ (bignum_mul (bignum_from_int (-4294967296)) (bignum_from_int 1)).value ≡
      (bignum_from_int (-4294967296)).value * (bignum_from_int 1).value [ZMOD 2 ^ 256] ∧
    bignum_mul (bignum_from_int (-5)) (bignum_from_int 7) = bignum_from_int (-35) := by
  decide

/-- C11, evaluated at `a = -2^32`, `b = 1`: neither operand is zero or the
minimum, and truncating division gives `-2^32`, but `bignum_div a b` is the
all-words-zero bignum, because the magnitude of `a` computed by `bignum_abs` is
already `0`. The quotient `-35 / 7` is `-5` as expected. -/
theorem C11_bignum_div_loses_quotient :
    (bignum_from_int (-4294967296)).value = -4294967296 ∧
    (bignum_from_int 1).value = 1 ∧
    bignum_from_int (-4294967296) ≠ bignum_min ∧ bignum_from_int 1 ≠ bignum_min ∧
    bignum_div (bignum_from_int (-4294967296)) (bignum_from_int 1) = bignum_from_int 0 ∧
    bignum_from_int 0 ≠ bignum_from_int (-4294967296) ∧
    bignum_div (bignum_from_int (-35)) (bignum_from_int 7) = bignum_from_int (-5) :=
  ⟨by decide, by decide, by decide, by decide,
    (div_of_divrem abs_neg_two_pow_32 (by decide) divrem_zero_by_one).trans (by decide),
    by decide,
    (div_of_divrem (by decide) (by decide) divrem_35_by_7).trans (by decide)⟩

/-- C12: for every well-formed bignum `a` with a non-negative sign word and
every well-formed bignum `b` of positive value, `bignum_divrem a b` returns a
well-formed quotient `q` and remainder `r` with
`value a = value q * value b + value r` and `0 ≤ value r < value b`. -/
theorem C12_bignum_divrem (a b : bignum) (ha : a.WF) (hb : b.WF)
    (hsa : 0 ≤ a.num_and_sign) (hvb : 0 < b.value) :
    (bignum_divrem a b).1.WF ∧ (bignum_divrem a b).2.WF ∧
    a.value = (bignum_divrem a b).1.value * b.value + (bignum_divrem a b).2.value ∧
    0 ≤ (bignum_divrem a b).2.value ∧ (bignum_divrem a b).2.value < b.value := by
  have key := divrem_value ha hb hsa hvb
  generalize bignum_divrem a b = R at key ⊢
  obtain ⟨w1, w2, e1, e2⟩ := key
  refine ⟨w1, w2, ?_, ?_, ?_⟩
  · rw [e1, e2]
    exact (Int.ediv_add_emod' a.value b.value).symm
  · rw [e2]; exact Int.emod_nonneg _ (by omega)
  · rw [e2]; exact Int.emod_lt_of_pos _ hvb

/-- C12 at `a = 35`, `b = 7`. -/
theorem C12_bignum_divrem_witness :
    (bignum_from_int 35).WF ∧ (bignum_from_int 7).WF ∧
    0 ≤ (bignum_from_int 35).num_and_sign ∧ 0 < (bignum_from_int 7).value ∧
    ((bignum_divrem (bignum_from_int 35) (bignum_from_int 7)).1.WF ∧
      (bignum_divrem (bignum_from_int 35) (bignum_from_int 7)).2.WF ∧
      (bignum_from_int 35).value =
        (bignum_divrem (bignum_from_int 35) (bignum_from_int 7)).1.value *
            (bignum_from_int 7).value +
          (bignum_divrem (bignum_from_int 35) (bignum_from_int 7)).2.value ∧
      0 ≤ (bignum_divrem (bignum_from_int 35) (bignum_from_int 7)).2.value ∧
      (bignum_divrem (bignum_from_int 35) (bignum_from_int 7)).2.value <
        (bignum_from_int 7).value) :=
  ⟨by decide, by decide, by decide, by decide,
    C12_bignum_divrem _ _ (by decide) (by decide) (by decide) (by decide)⟩

/-- C13 fails at `a = 5`: the quotient of `bignum_divrem 5 0` and
`bignum_div 5 0` are the all-ones bignum `-1`, not the all-words-zero one. -/
theorem C13_div_by_zero_counterexample :
    (bignum_divrem (bignum_abs (bignum_from_int 5)) bignum_init).1 = bignum_from_int (-1) ∧
    bignum_div (bignum_from_int 5) bignum_init = bignum_from_int (-1) ∧
    bignum_from_int (-1) ≠ bignum_init :=
  ⟨divrem_zero_fst (WF_abs (WF_from_int 5)).1 (WF_abs (WF_from_int 5)).2,
    (div_by_zero (WF_from_int 5)).trans (by decide), by decide⟩

/-- C13, amended: for every well-formed bignum `a`, division by zero runs to
completion with every quotient bit set: the quotient of
`bignum_divrem |a| 0` is the all-ones bignum, of value `-1`, and
`bignum_div a 0` is `-1` when the sign word of `a` is non-negative and `1` when
it is negative. -/
theorem C13_div_by_zero (a : bignum) (ha : a.WF) :
    (bignum_divrem (bignum_abs a) bignum_init).1 = bignum_from_int (-1) ∧
    (bignum_from_int (-1)).value = -1 ∧
    (bignum_from_int (-1)).num = List.replicate BN_ARRAY_SIZE 4294967295 ∧
    bignum_div a bignum_init =
      if a.num_and_sign < 0 then bignum_from_int 1 else bignum_from_int (-1) :=
  ⟨divrem_zero_fst (WF_abs ha).1 (WF_abs ha).2, by decide, by decide, div_by_zero ha⟩

/-- C13 amended, at `a = -35`. -/
theorem C13_div_by_zero_witness :
    (bignum_from_int (-35)).WF ∧
    ((bignum_divrem (bignum_abs (bignum_from_int (-35))) bignum_init).1 = bignum_from_int (-1) ∧
    (bignum_from_int (-1)).value = -1 ∧
    (bignum_from_int (-1)).num = List.replicate BN_ARRAY_SIZE 4294967295 ∧
    bignum_div (bignum_from_int (-35)) bignum_init =
      if (bignum_from_int (-35)).num_and_sign < 0 then bignum_from_int 1
      else bignum_from_int (-1)) :=
  ⟨by decide, C13_div_by_zero _ (by decide)⟩

/-- C14, evaluated at `n = -2^32` with a buffer of 28 bytes: the text written
is `-0`, not `-4294967296`, whatever the buffer held before; the magnitude
computed by `bignum_abs` is `0`. For `n = -123` and `n = 0` with 16 bytes the
text is `-123` and `0` as expected. -/
theorem C14_to_dec_wrong_numeral (init : Int → Nat) :
    to_dec_text (bignum_from_int (-4294967296)) init 28 = "-0" ∧
    to_dec_text (bignum_from_int (-123)) init 16 = "-123" ∧
    to_dec_text (bignum_from_int 0) init 16 = "0" := by
  have h1 := to_dec_loop_break 27 18 [(27, 0)] (by decide) divrem_zero_by_base (by decide)
  have h1' : to_dec_loop (bignum_from_int 1000000000) 28
      (to_i32 (((28 : Nat) : Int) - 1 - 9), bignum_abs (bignum_from_int (-4294967296)),
        [(((28 : Nat) : Int) - 1, 0)]) =
      (18, bignum_from_int 0, store [(27, 0)] 18 (snprintf_09u ((bignum_from_int 0).word 0))) := by
    rw [abs_neg_two_pow_32]; exact h1
  have h2 := to_dec_loop_break 15 6 [(15, 0)] (by decide) divrem_123_by_base (by decide)
  have h2' : to_dec_loop (bignum_from_int 1000000000) 16
      (to_i32 (((16 : Nat) : Int) - 1 - 9), bignum_abs (bignum_from_int (-123)),
        [(((16 : Nat) : Int) - 1, 0)]) =
      (6, bignum_from_int 0, store [(15, 0)] 6 (snprintf_09u ((bignum_from_int 123).word 0))) := by
    rw [abs_neg_123]; exact h2
  have h3 := to_dec_loop_break 15 6 [(15, 0)] (by decide) divrem_zero_by_base (by decide)
  have h3' : to_dec_loop (bignum_from_int 1000000000) 16
      (to_i32 (((16 : Nat) : Int) - 1 - 9), bignum_abs (bignum_from_int 0),
        [(((16 : Nat) : Int) - 1, 0)]) =
      (6, bignum_from_int 0, store [(15, 0)] 6 (snprintf_09u ((bignum_from_int 0).word 0))) := by
    rw [abs_zero]; exact h3
  refine ⟨?_, ?_, ?_⟩
  · unfold to_dec_text
    rw [to_dec_unfold _ init 28 (by decide) _ h1']
    rfl
  · unfold to_dec_text
    rw [to_dec_unfold _ init 16 (by decide) _ h2']
    rfl
  · unfold to_dec_text
    rw [to_dec_unfold _ init 16 (by decide) _ h3']
    rfl

/-- C15: for every bignum and every buffer size from 1 to 9, the only write
of `bignum_to_dec` is a terminator at position 0; with size 0 it writes
nothing. -/
theorem C15_to_dec_small_buffer (a : bignum) (init : Int → Nat) (size : Nat)
    (h : size ≤ 9) :
    bignum_to_dec a init size = (if size = 0 then [] else [(0, 0)]) ∧
    (size ≠ 0 → to_dec_text a init size = "") := by
  have e : bignum_to_dec a init size = (if size = 0 then [] else [(0, 0)]) := by
    unfold bignum_to_dec
    by_cases h0 : size = 0
    · rw [if_pos h0, if_pos h0]
    · rw [if_neg h0, if_pos (by omega), if_neg h0]
  refine ⟨e, fun h0 => ?_⟩
  unfold to_dec_text
  rw [e, if_neg h0]
  obtain ⟨n, rfl⟩ : ∃ n, size = n + 1 := ⟨size - 1, by omega⟩
  rfl

/-- C15 at size 9. -/
theorem C15_to_dec_small_buffer_witness :
    (9 : Nat) ≤ 9 ∧
    (bignum_to_dec (bignum_from_int 5) (fun _ => 0) 9 = (if (9 : Nat) = 0 then [] else [(0, 0)]) ∧
    ((9 : Nat) ≠ 0 → to_dec_text (bignum_from_int 5) (fun _ => 0) 9 = "")) :=
  ⟨by decide, C15_to_dec_small_buffer _ _ 9 (by decide)⟩

/-- C16, evaluated at `a = -2^32` with a buffer of 10 bytes, which holds one
9-digit slot: the magnitude `2^32` is at least `10^9`, but the text written is
`-0` and carries no marker; the magnitude computed by `bignum_abs` is `0`. -/
theorem C16_to_dec_no_marker (init : Int → Nat) :
    (10 : Int) ^ (9 * ((10 - 1) / 9)) ≤ |(bignum_from_int (-4294967296)).value| ∧
    to_dec_text (bignum_from_int (-4294967296)) init 10 = "-0" := by
  have h1 := to_dec_loop_break 9 0 [(9, 0)] (by decide) divrem_zero_by_base (by decide)
  have h1' : to_dec_loop (bignum_from_int 1000000000) 10
      (to_i32 (((10 : Nat) : Int) - 1 - 9), bignum_abs (bignum_from_int (-4294967296)),
        [(((10 : Nat) : Int) - 1, 0)]) =
      (0, bignum_from_int 0, store [(9, 0)] 0 (snprintf_09u ((bignum_from_int 0).word 0))) := by
    rw [abs_neg_two_pow_32]; exact h1
  refine ⟨by decide, ?_⟩
  unfold to_dec_text
  rw [to_dec_unfold _ init 10 (by decide) _ h1']
  rfl

/-- C17, evaluated at the value `-123456789` with a buffer of 10 bytes: the
nine digits fill the only slot, the sign is stored at position `-1`, before the
buffer, and the final move of 11 bytes stores the terminator at position `10`,
behind it. -/
theorem C17_to_dec_out_of_bounds (init : Int → Nat) :
    bignum_to_dec (bignum_from_int (-123456789)) init 10 =
      [(10, 0), (9, 57), (8, 56), (7, 55), (6, 54), (5, 53), (4, 52), (3, 51), (2, 50),
        (1, 49), (0, 45), (-1, 45), (8, 57), (7, 56), (6, 55), (5, 54), (4, 53), (3, 52),
        (2, 51), (1, 50), (0, 49), (9, 0)] ∧
    (∃ p ∈ bignum_to_dec (bignum_from_int (-123456789)) init 10, p.1 < 0) ∧
    (∃ p ∈ bignum_to_dec (bignum_from_int (-123456789)) init 10, ((10 : Nat) : Int) ≤ p.1) := by
  have h1 := to_dec_loop_break 9 0 [(9, 0)] (by decide) divrem_123456789_by_base (by decide)
  have h1' : to_dec_loop (bignum_from_int 1000000000) 10
      (to_i32 (((10 : Nat) : Int) - 1 - 9), bignum_abs (bignum_from_int (-123456789)),
        [(((10 : Nat) : Int) - 1, 0)]) =
      (0, bignum_from_int 0,
        store [(9, 0)] 0 (snprintf_09u ((bignum_from_int 123456789).word 0))) := by
    rw [abs_neg_123456789]; exact h1
  have e : bignum_to_dec (bignum_from_int (-123456789)) init 10 =
      [(10, 0), (9, 57), (8, 56), (7, 55), (6, 54), (5, 53), (4, 52), (3, 51), (2, 50),
        (1, 49), (0, 45), (-1, 45), (8, 57), (7, 56), (6, 55), (5, 54), (4, 53), (3, 52),
        (2, 51), (1, 50), (0, 49), (9, 0)] := by
    rw [to_dec_unfold _ init 10 (by decide) _ h1']
    rfl
  rw [e]
  exact ⟨rfl, ⟨(-1, 45), by decide, by decide⟩, ⟨(10, 0), by decide, by decide⟩⟩

/-- C18: for every index `k` with `369 ≤ k < 2^31`, `fib_bignum_fast k` and
`fib_bignum_orig k` (whatever the output buffer held on entry) are the same
bignum, word for word, and its 256-bit pattern is the Fibonacci number `F k`
reduced modulo `2^256`. -/
theorem C18_fast_matches_orig_wrapping (k : Int) (h1 : 369 ≤ k) (h2 : k < 2 ^ 31)
    (result : bignum) :
    fib_bignum_fast k = fib_bignum_orig k result ∧
    (fib_bignum_fast k).WF ∧
    (fib_bignum_fast k).toNat = F k.toNat % 2 ^ 256 ∧
    (fib_bignum_orig k result).toNat = F k.toNat % 2 ^ 256 := by
  obtain ⟨w1, v1⟩ := fast_modEq k (by omega) h2
  obtain ⟨w2, v2⟩ := orig_modEq k (by omega) result
  have r1 := value_range w1
  have r2 := value_range w2
  have e : fib_bignum_fast k = fib_bignum_orig k result :=
    value_inj w1 w2 (modEq_range (v1.trans v2.symm) r1.1 r1.2 r2.1 r2.2)
  rw [F_eq_fib]
  exact ⟨e, w1, toNat_of_modEq w1 _ v1, toNat_of_modEq w2 _ v2⟩

/-- C18 at `k = 369`, the first index whose Fibonacci number wraps. -/
theorem C18_fast_matches_orig_wrapping_witness :
    fib_bignum_fast 369 = fib_bignum_orig 369 bignum_init ∧
    (fib_bignum_fast 369).WF ∧
    (fib_bignum_fast 369).toNat = F (369 : Int).toNat % 2 ^ 256 ∧
    (fib_bignum_orig 369 bignum_init).toNat = F (369 : Int).toNat % 2 ^ 256 :=
  C18_fast_matches_orig_wrapping 369 (by decide) (by decide) bignum_init

/-- C19: for all well-formed bignums `a` and `b` whose sign words are
non-negative, the 256-bit pattern of `bignum_mul a b` read as an unsigned
integer is `value a * value b` modulo `2^256`. -/
theorem C19_mul_magnitude (a b : bignum) (ha : a.WF) (hb : b.WF)
    (hsa : 0 ≤ a.num_and_sign) (hsb : 0 ≤ b.num_and_sign) :
    (bignum_mul a b).WF ∧
    ((bignum_mul a b).toNat : Int) = (a.value * b.value) % 2 ^ 256 ∧
    (bignum_mul a b).toNat = (a.toNat * b.toNat) % 2 ^ 256 := by
  obtain ⟨w, e⟩ := mul_spec ha hb (Or.inl hsa) (Or.inl hsb)
  have h1 : ((bignum_mul a b).toNat : Int) = (a.value * b.value) % 2 ^ 256 := by
    rw [toNat_value w]; exact e
  refine ⟨w, h1, ?_⟩
  rw [value_of_nonneg ha hsa, value_of_nonneg hb hsb] at h1
  exact_mod_cast h1

/-- C19 at `a = 2^255 - 1`, `b = 3`, where the product wraps. -/
theorem C19_mul_magnitude_witness :
    (bignum.mk [4294967295, 4294967295, 4294967295, 4294967295, 4294967295, 4294967295,
      4294967295] 2147483647).WF ∧ (bignum_from_int 3).WF ∧
    0 ≤ (bignum.mk [4294967295, 4294967295, 4294967295, 4294967295, 4294967295, 4294967295,
      4294967295] 2147483647).num_and_sign ∧ 0 ≤ (bignum_from_int 3).num_and_sign ∧
    ((bignum_mul (bignum.mk [4294967295, 4294967295, 4294967295, 4294967295, 4294967295,
      4294967295, 4294967295] 2147483647) (bignum_from_int 3)).WF ∧
    ((bignum_mul (bignum.mk [4294967295, 4294967295, 4294967295, 4294967295, 4294967295,
      4294967295, 4294967295] 2147483647) (bignum_from_int 3)).toNat : Int) =
      ((bignum.mk [4294967295, 4294967295, 4294967295, 4294967295, 4294967295,
        4294967295, 4294967295] 2147483647).value * (bignum_from_int 3).value) % 2 ^ 256 ∧
    (bignum_mul (bignum.mk [4294967295, 4294967295, 4294967295, 4294967295, 4294967295,
      4294967295, 4294967295] 2147483647) (bignum_from_int 3)).toNat =
      ((bignum.mk [4294967295, 4294967295, 4294967295, 4294967295, 4294967295,
        4294967295, 4294967295] 2147483647).toNat * (bignum_from_int 3).toNat) % 2 ^ 256) :=
  ⟨by decide, by decide, by decide, by decide,
    C19_mul_magnitude _ _ (by decide) (by decide) (by decide) (by decide)⟩

/-- C20: for every well-formed bignum `a` and every `lsb` in `{0, 1}`, the
value of `bignum_shl1 a lsb` is congruent to `2 * value a + lsb` modulo `2^256`,
and `bignum_shl1 a 0` equals `bignum_add a a` word for word. -/
theorem C20_bignum_shl1 (a : bignum) (ha : a.WF) (lsb : Nat) (hl : lsb ≤ 1) :
    (bignum_shl1 a lsb).WF ∧
    (bignum_shl1 a lsb).value ≡ 2 * a.value + lsb [ZMOD 2 ^ 256] ∧
    bignum_shl1 a 0 = bignum_add a a := by
  refine ⟨WF_shl1 ha lsb hl, ?_, ?_⟩
  · rw [value_shl1 ha lsb hl]; exact wrap256_modEq _
  · apply value_inj (WF_shl1 ha 0 (by omega)) (WF_add ha ha)
    rw [value_shl1 ha 0 (by omega), value_add ha ha]
    congr 1
    push_cast; ring

/-- C20 at `a = -5`, `lsb = 1`. -/
theorem C20_bignum_shl1_witness :
    (bignum_from_int (-5)).WF ∧ (1 : Nat) ≤ 1 ∧
    ((bignum_shl1 (bignum_from_int (-5)) 1).WF ∧
    (bignum_shl1 (bignum_from_int (-5)) 1).value ≡
      2 * (bignum_from_int (-5)).value + (1 : Nat) [ZMOD 2 ^ 256] ∧
    bignum_shl1 (bignum_from_int (-5)) 0 =
      bignum_add (bignum_from_int (-5)) (bignum_from_int (-5))) :=
  ⟨by decide, by decide, C20_bignum_shl1 _ (by decide) 1 (by decide)⟩

/-- C21: for every 64-bit `offset`, every `orig` in `{0, 1, 2}` and every file
position in `[0, 368]` on entry, `fib_device_lseek` returns a position `p`
with `0 ≤ p ≤ 368` and stores that same `p` as the new file position; for
`SEEK_SET` with `0 ≤ offset ≤ 368` it returns `offset` unchanged. -/
theorem C21_lseek_bounds (f_pos offset orig : Int)
    (_hf : 0 ≤ f_pos ∧ f_pos ≤ 368)
    (ho : -9223372036854775808 ≤ offset ∧ offset < 9223372036854775808)
    (_hw : orig = 0 ∨ orig = 1 ∨ orig = 2) :
    0 ≤ (fib_device_lseek f_pos offset orig).2 ∧
    (fib_device_lseek f_pos offset orig).2 ≤ 368 ∧
    (fib_device_lseek f_pos offset orig).1 = (fib_device_lseek f_pos offset orig).2 ∧
    (orig = 0 → 0 ≤ offset → offset ≤ 368 →
      fib_device_lseek f_pos offset orig = (offset, offset)) := by
  unfold fib_device_lseek MAX_LENGTH
  dsimp only
  refine ⟨?_, ?_, rfl, ?_⟩
  · split_ifs <;> omega
  · split_ifs <;> omega
  · intro h0 h1 h2
    rw [if_pos h0, if_neg (by omega), if_neg (by omega)]

/-- C21 at `SEEK_SET` with offset 368 from position 5. -/
theorem C21_lseek_bounds_witness :
    ((0 : Int) ≤ 5 ∧ (5 : Int) ≤ 368) ∧
    ((-9223372036854775808 : Int) ≤ 368 ∧ (368 : Int) < 9223372036854775808) ∧
    ((0 : Int) = 0 ∨ (0 : Int) = 1 ∨ (0 : Int) = 2) ∧
    (0 ≤ (fib_device_lseek 5 368 0).2 ∧
    (fib_device_lseek 5 368 0).2 ≤ 368 ∧
    (fib_device_lseek 5 368 0).1 = (fib_device_lseek 5 368 0).2 ∧
    ((0 : Int) = 0 → (0 : Int) ≤ 368 → (368 : Int) ≤ 368 →
      fib_device_lseek 5 368 0 = (368, 368))) :=
  ⟨by decide, by decide, by decide,
    C21_lseek_bounds 5 368 0 (by decide) (by decide) (by decide)⟩

end Fibdrv
